import Mathlib

/-!
Verification development for the cartographer analysis engine.

This file gives a shallow embedding of the core analysis components
(unified AST model, code graph, import resolver, module detector,
orchestrator batch loop) and proves or refutes the frozen claims
about them.  Rust `usize` identifiers are modelled as `Nat`,
`PathBuf` as a normalized list of components together with an
absolute-path flag, `HashMap` as an association list with
insert-or-replace semantics, and the filesystem probed by the import
resolver as the finite list of files that exist.
-/

set_option maxHeartbeats 1000000

namespace Cartographer

open scoped List

/-! ## String helpers mirroring Rust string operations

These are written over the character list of the string so that every
definition evaluates inside the kernel. -/

/-- Split a character list at every occurrence of `sep`
(Rust `str::split(char)`; the empty string yields one empty piece). -/
def chSplit (sep : Char) : List Char → List (List Char)
  | [] => [[]]
  | c :: cs =>
    let r := chSplit sep cs
    if c = sep then [] :: r
    else
      match r with
      | [] => [[c]]
      | h :: t => (c :: h) :: t

/-- Rust `str::split(sep)` collected into a list. -/
def strSplit (s : String) (sep : Char) : List String :=
  (chSplit sep s.data).map fun l => ⟨l⟩

/-- Rust `str::replace(oldc, newc)` for one-character patterns. -/
def strReplaceChar (s : String) (oldc newc : Char) : String :=
  ⟨s.data.map fun c => if c = oldc then newc else c⟩

/-- Boolean initial-segment test on character lists. -/
def chPre : List Char → List Char → Bool
  | [], _ => true
  | _ :: _, [] => false
  | x :: xs, y :: ys => x = y && chPre xs ys

/-- Rust `str::starts_with`. -/
def strStartsWith (s pat : String) : Bool :=
  chPre pat.data s.data

/-- Rust `str::ends_with`. -/
def strEndsWith (s pat : String) : Bool :=
  chPre pat.data.reverse s.data.reverse

/-- Rust `str::to_lowercase` (ASCII, which covers every table entry). -/
def strToLower (s : String) : String :=
  ⟨s.data.map Char.toLower⟩

/-- Drop the last `n` characters (`String::dropRight`). -/
def strDropRight (s : String) (n : Nat) : String :=
  ⟨s.data.take (s.data.length - n)⟩

/-- Lexicographic comparison of character lists. -/
def chLt : List Char → List Char → Bool
  | [], [] => false
  | [], _ :: _ => true
  | _ :: _, [] => false
  | x :: xs, y :: ys => if x = y then chLt xs ys else decide (x < y)

/-- Fuel-driven worker for `trimEndMatches`. -/
def trimEndAux (pat : String) : Nat → String → String
  | 0, s => s
  | n + 1, s =>
    if pat ≠ "" ∧ strEndsWith s pat then
      trimEndAux pat n (strDropRight s pat.length)
    else s

/-- Rust `str::trim_end_matches`: repeatedly removes the suffix `pat`. -/
def trimEndMatches (s pat : String) : String :=
  trimEndAux pat s.length s

/-! ## Unified AST model (`src/parser/ast.rs`) -/

/-- Kind of import statement (`ImportKind`). -/
inductive ImportKind where
  | Direct
  | From
  | Relative (level : Nat)
  deriving DecidableEq, Repr

/-- A single imported name with optional alias (`ImportedName`). -/
structure ImportedName where
  name : String
  alias_ : Option String
  deriving DecidableEq, Repr

/-- An import statement (`Import`). -/
structure Import where
  module : String
  names : List ImportedName
  kind : ImportKind
  line : Nat
  deriving DecidableEq, Repr

/-- `Import::simple`: an `import x` style import. -/
def Import.simple (module : String) (line : Nat) : Import :=
  { module := module, names := [], kind := .Direct, line := line }

/-- `Import::relative`: a relative import with the given level. -/
def Import.relative (module : String) (names : List ImportedName) (level : Nat)
    (line : Nat) : Import :=
  { module := module, names := names, kind := .Relative level, line := line }

/-- Kind of function parameter (`ParameterKind`). -/
inductive ParameterKind where
  | Regular
  | Args
  | Kwargs
  | PositionalOnly
  | KeywordOnly
  deriving DecidableEq, Repr

/-- A function parameter (`Parameter`). -/
structure Parameter where
  name : String
  type_hint : Option String
  default : Option String
  kind : ParameterKind
  deriving DecidableEq, Repr

/-- Rust `Display` for `Parameter`. -/
def Parameter.toDisplay (p : Parameter) : String :=
  let pre :=
    match p.kind with
    | .Args => "*"
    | .Kwargs => "**"
    | _ => ""
  let base := pre ++ p.name
  let withHint :=
    match p.type_hint with
    | some t => base ++ ": " ++ t
    | none => base
  match p.default with
  | some d =>
    if p.type_hint.isSome then withHint ++ " = " ++ d else withHint ++ "=" ++ d
  | none => withHint

/-- A module-level constant (`Constant`). -/
structure Constant where
  name : String
  type_hint : Option String
  value : Option String
  line : Nat
  deriving DecidableEq, Repr

/-- A class attribute (`Attribute`). -/
structure Attribute where
  name : String
  type_hint : Option String
  default : Option String
  line : Nat
  deriving DecidableEq, Repr

/-- A function or method definition (`Function`). -/
structure Function where
  name : String
  docstring : Option String
  parameters : List Parameter
  return_type : Option String
  decorators : List String
  is_async : Bool
  is_generator : Bool
  is_component : Bool
  line_start : Nat
  line_end : Nat
  deriving DecidableEq, Repr

/-- `Function::signature`: string rendering of the function signature. -/
def Function.signature (f : Function) : String :=
  let params := String.intercalate ", " (f.parameters.map Parameter.toDisplay)
  let ret :=
    match f.return_type with
    | some r => " -> " ++ r
    | none => ""
  let pre := if f.is_async then "async " else ""
  pre ++ "def " ++ f.name ++ "(" ++ params ++ ")" ++ ret

/-- A class definition (`Class`). -/
structure Class where
  name : String
  docstring : Option String
  bases : List String
  decorators : List String
  methods : List Function
  attributes : List Attribute
  line_start : Nat
  line_end : Nat
  deriving DecidableEq, Repr

/-! ## Filesystem paths

A Rust `PathBuf` is modelled in normalized form: an absolute-path flag
plus the list of normal components.  Rust's `Path::components()`
additionally yields a `RootDir` component (rendered `"/"`) for
absolute paths; `componentsAll` reproduces that view. -/

/-- Normalized model of a Rust `PathBuf`. -/
structure FsPath where
  absolute : Bool
  components : List String
  deriving DecidableEq, Repr

/-- The component list as Rust's `Path::components()` yields it:
a `RootDir` (rendered `"/"`) first when the path is absolute. -/
def FsPath.componentsAll (p : FsPath) : List String :=
  (if p.absolute then ["/"] else []) ++ p.components

/-- Rust `Path::parent`: drops the last component; `None` for a root
or empty path. -/
def FsPath.parent (p : FsPath) : Option FsPath :=
  match p.components with
  | [] => none
  | _ => some ⟨p.absolute, p.components.dropLast⟩

/-- Rust `Path::join`: an absolute argument replaces the path. -/
def FsPath.join (p q : FsPath) : FsPath :=
  if q.absolute then q else ⟨p.absolute, p.components ++ q.components⟩

/-- Parse a string into a normalized path (empty segments collapse,
as Rust's component iteration does). -/
def FsPath.ofString (s : String) : FsPath :=
  ⟨strStartsWith s "/", (strSplit s '/').filter (fun c => c ≠ "")⟩

/-- Drops `base` from the front of `l`; `none` if `base` is not an
initial segment. -/
def dropBase : List String → List String → Option (List String)
  | [], ys => some ys
  | _ :: _, [] => none
  | x :: xs, y :: ys => if x = y then dropBase xs ys else none

/-- Rust `Path::strip_prefix` (as delivered through `componentsAll`). -/
def FsPath.stripBase (p base : FsPath) : Option FsPath :=
  (dropBase base.componentsAll p.componentsAll).map fun rest =>
    match rest with
    | "/" :: more => ⟨true, more⟩
    | _ => ⟨false, rest⟩

/-- Rust `Path::file_name`: the last component. -/
def FsPath.fileName (p : FsPath) : Option String :=
  p.components.getLast?

/-- Rust `Path::file_stem` restricted to one component: the portion
before the last dot, except for dot-leading names without another dot. -/
def fileStemOf (name : String) : String :=
  match strSplit name '.' with
  | [] => name
  | [_] => name
  | ["", _] => name
  | parts => String.intercalate "." parts.dropLast

/-- Rust `Path::extension` of the last component. -/
def FsPath.extension (p : FsPath) : Option String :=
  match p.components.getLast? with
  | none => none
  | some name =>
    match strSplit name '.' with
    | [] => none
    | [_] => none
    | ["", _] => none
    | parts => parts.getLast?

/-- Rust `Path::with_extension`: replaces or adds the extension of the
last component; a path without a file name is unchanged. -/
def FsPath.withExtension (p : FsPath) (ext : String) : FsPath :=
  match p.components.getLast? with
  | none => p
  | some name => ⟨p.absolute, p.components.dropLast ++ [fileStemOf name ++ "." ++ ext]⟩

/-- A parsed source file (`ParsedFile`). -/
structure ParsedFile where
  path : FsPath
  module_name : String
  docstring : Option String
  imports : List Import
  classes : List Class
  functions : List Function
  constants : List Constant
  total_lines : Nat
  code_lines : Nat
  comment_lines : Nat
  deriving DecidableEq, Repr

/-- `ParsedFile::new`: a parsed file with only path and module name set. -/
def ParsedFile.new (path : FsPath) (module_name : String) : ParsedFile :=
  { path := path, module_name := module_name, docstring := none, imports := [],
    classes := [], functions := [], constants := [], total_lines := 0,
    code_lines := 0, comment_lines := 0 }

/-! ## Code graph (`src/analysis/graph.rs`)

`FileId`, `ClassId` and `FunctionId` are `usize` newtypes; they are
modelled directly as `Nat`.  The three node `HashMap`s are modelled as
association lists mutated only through insert-or-replace. -/

/-- Unique identifier for any node in the graph (`NodeId`). -/
inductive NodeId where
  | file (id : Nat)
  | cls (id : Nat)
  | func (id : Nat)
  deriving DecidableEq, Repr

/-- Kind of edge in the code graph (`EdgeKind`). -/
inductive EdgeKind where
  | Imports
  | Inherits
  | Calls
  | DefinedIn
  deriving DecidableEq, Repr

/-- An edge in the code graph (`Edge`); `from` is a Lean keyword, so
the field is named `from_`. -/
structure Edge where
  from_ : NodeId
  to_ : NodeId
  kind : EdgeKind
  deriving DecidableEq, Repr

/-- `Edge::imports`: an Imports edge between two file nodes. -/
def Edge.imports (fromFile toFile : Nat) : Edge :=
  { from_ := .file fromFile, to_ := .file toFile, kind := .Imports }

/-- A file node in the code graph (`FileNode`). -/
structure FileNode where
  path : FsPath
  module_name : String
  docstring : Option String
  total_lines : Nat
  code_lines : Nat
  comment_lines : Nat
  classes : List Nat
  functions : List Nat
  imports : List Import
  constants : List Constant
  deriving DecidableEq, Repr

/-- `FileNode::from_parsed`. -/
def FileNode.from_parsed (file : ParsedFile) (classes : List Nat)
    (functions : List Nat) : FileNode :=
  { path := file.path, module_name := file.module_name,
    docstring := file.docstring, total_lines := file.total_lines,
    code_lines := file.code_lines, comment_lines := file.comment_lines,
    classes := classes, functions := functions, imports := file.imports,
    constants := file.constants }

/-- A class node in the code graph (`ClassNode`). -/
structure ClassNode where
  name : String
  file : Nat
  docstring : Option String
  bases : List String
  decorators : List String
  methods : List Nat
  line_start : Nat
  line_end : Nat
  deriving DecidableEq, Repr

/-- `ClassNode::from_parsed`. -/
def ClassNode.from_parsed (c : Class) (file : Nat) (methods : List Nat) : ClassNode :=
  { name := c.name, file := file, docstring := c.docstring, bases := c.bases,
    decorators := c.decorators, methods := methods, line_start := c.line_start,
    line_end := c.line_end }

/-- A function node in the code graph (`FunctionNode`). -/
structure FunctionNode where
  name : String
  file : Nat
  cls : Option Nat
  docstring : Option String
  parameters : List Parameter
  signature : String
  return_type : Option String
  is_async : Bool
  decorators : List String
  line_start : Nat
  line_end : Nat
  deriving DecidableEq, Repr

/-- `FunctionNode::from_parsed`. -/
def FunctionNode.from_parsed (f : Function) (file : Nat) (cls : Option Nat) :
    FunctionNode :=
  { name := f.name, file := file, cls := cls, docstring := f.docstring,
    parameters := f.parameters, signature := f.signature,
    return_type := f.return_type, is_async := f.is_async,
    decorators := f.decorators, line_start := f.line_start,
    line_end := f.line_end }

/-- `HashMap::insert` on the association-list model: replaces the value
of an existing key, otherwise appends a fresh entry. -/
def insertR {α β : Type} [DecidableEq α] (l : List (α × β)) (k : α) (v : β) :
    List (α × β) :=
  if k ∈ l.map Prod.fst then
    l.map fun kv => if kv.1 = k then (k, v) else kv
  else l ++ [(k, v)]

/-- `HashMap::get` on the association-list model. -/
def findVal {α β : Type} [DecidableEq α] : List (α × β) → α → Option β
  | [], _ => none
  | (k, v) :: rest, key => if k = key then some v else findVal rest key

/-- The code graph containing all nodes and edges (`CodeGraph`). -/
structure CodeGraph where
  files : List (Nat × FileNode)
  classes : List (Nat × ClassNode)
  functions : List (Nat × FunctionNode)
  edges : List Edge
  path_to_file : List (FsPath × Nat)
  module_to_file : List (String × Nat)
  next_file_id : Nat
  next_class_id : Nat
  next_function_id : Nat
  deriving DecidableEq, Repr

/-- `CodeGraph::new`: the empty graph. -/
def CodeGraph.new : CodeGraph :=
  { files := [], classes := [], functions := [], edges := [],
    path_to_file := [], module_to_file := [],
    next_file_id := 0, next_class_id := 0, next_function_id := 0 }

/-- `CodeGraph::add_function_internal`: allocates a `FunctionId` and
inserts the function node. -/
def CodeGraph.add_function_internal (g : CodeGraph) (f : Function)
    (file_id : Nat) (class_id : Option Nat) : Nat × CodeGraph :=
  let func_id := g.next_function_id
  let node := FunctionNode.from_parsed f file_id class_id
  (func_id,
    { g with
      next_function_id := func_id + 1
      functions := insertR g.functions func_id node })

/-- The method loop inside `add_class_internal`. -/
def addMethodsAux (file_id class_id : Nat) :
    List Function → CodeGraph → List Nat × CodeGraph
  | [], g => ([], g)
  | m :: ms, g =>
    let r := g.add_function_internal m file_id (some class_id)
    let rest := addMethodsAux file_id class_id ms r.2
    (r.1 :: rest.1, rest.2)

/-- `CodeGraph::add_class_internal`: allocates a `ClassId`, adds the
methods, then inserts the class node. -/
def CodeGraph.add_class_internal (g : CodeGraph) (c : Class) (file_id : Nat) :
    Nat × CodeGraph :=
  let class_id := g.next_class_id
  let g1 := { g with next_class_id := class_id + 1 }
  let r := addMethodsAux file_id class_id c.methods g1
  let node := ClassNode.from_parsed c file_id r.1
  (class_id, { r.2 with classes := insertR r.2.classes class_id node })

/-- The class loop inside `add_file`. -/
def addClassesAux (file_id : Nat) :
    List Class → CodeGraph → List Nat × CodeGraph
  | [], g => ([], g)
  | c :: cs, g =>
    let r := g.add_class_internal c file_id
    let rest := addClassesAux file_id cs r.2
    (r.1 :: rest.1, rest.2)

/-- The top-level function loop inside `add_file`. -/
def addFunsAux (file_id : Nat) :
    List Function → CodeGraph → List Nat × CodeGraph
  | [], g => ([], g)
  | f :: fsx, g =>
    let r := g.add_function_internal f file_id none
    let rest := addFunsAux file_id fsx r.2
    (r.1 :: rest.1, rest.2)

/-- `CodeGraph::add_file`: allocates a `FileId`, recursively adds class
and function nodes, then registers the file node and its lookup keys. -/
def CodeGraph.add_file (g : CodeGraph) (parsed : ParsedFile) : Nat × CodeGraph :=
  let file_id := g.next_file_id
  let g1 := { g with next_file_id := file_id + 1 }
  let rc := addClassesAux file_id parsed.classes g1
  let rf := addFunsAux file_id parsed.functions rc.2
  let node := FileNode.from_parsed parsed rc.1 rf.1
  (file_id,
    { rf.2 with
      path_to_file := insertR rf.2.path_to_file parsed.path file_id
      module_to_file := insertR rf.2.module_to_file parsed.module_name file_id
      files := insertR rf.2.files file_id node })

/-- `CodeGraph::add_edge`: appends to the edge list unconditionally. -/
def CodeGraph.add_edge (g : CodeGraph) (e : Edge) : CodeGraph :=
  { g with edges := g.edges ++ [e] }

/-- `CodeGraph::imports_of`: all files a given file imports. -/
def CodeGraph.imports_of (g : CodeGraph) (file : Nat) : List Nat :=
  (g.edges.filter fun e => e.kind = .Imports ∧ e.from_ = .file file).filterMap
    fun e =>
      match e.to_ with
      | .file id => some id
      | _ => none

/-- Aggregate statistics about the graph (`GraphStats`). -/
structure GraphStats where
  files : Nat
  classes : Nat
  functions : Nat
  edges : Nat
  total_lines : Nat
  code_lines : Nat
  deriving DecidableEq, Repr

/-- `CodeGraph::stats`: aggregate counts computed by full traversal. -/
def CodeGraph.stats (g : CodeGraph) : GraphStats :=
  { files := g.files.length
    classes := g.classes.length
    functions := g.functions.length
    edges := g.edges.length
    total_lines := (g.files.map fun kv => kv.2.total_lines).sum
    code_lines := (g.files.map fun kv => kv.2.code_lines).sum }

/-- Whether a `NodeId` references a node present in the graph. -/
def CodeGraph.nodePresent (g : CodeGraph) (n : NodeId) : Bool :=
  match n with
  | .file id => id ∈ g.files.map Prod.fst
  | .cls id => id ∈ g.classes.map Prod.fst
  | .func id => id ∈ g.functions.map Prod.fst

/-! ## Import resolver (`src/analysis/imports.rs`)

The filesystem is a parameter `fsys : List FsPath`, the finite list of
files that exist; `Path::exists` becomes list membership. -/

/-- Classification of an import (`ImportType`). -/
inductive ImportType where
  | Stdlib
  | ThirdParty
  | Local
  | Unknown
  deriving DecidableEq, Repr

/-- Result of resolving an import (`ResolvedImport`). -/
structure ResolvedImport where
  import_ : Import
  import_type : ImportType
  resolved_path : Option FsPath
  resolved_module : String
  deriving DecidableEq, Repr

/-- The built-in Python standard-library module-name set
(`ImportResolver::load_stdlib_modules`). -/
def stdlibModules : List String :=
  ["abc", "aifc", "argparse", "array", "ast", "asynchat", "asyncio",
   "asyncore", "atexit", "audioop", "base64", "bdb", "binascii",
   "binhex", "bisect", "builtins", "bz2", "calendar", "cgi", "cgitb",
   "chunk", "cmath", "cmd", "code", "codecs", "codeop", "collections",
   "colorsys", "compileall", "concurrent", "configparser", "contextlib",
   "contextvars", "copy", "copyreg", "cProfile", "crypt", "csv",
   "ctypes", "curses", "dataclasses", "datetime", "dbm", "decimal",
   "difflib", "dis", "distutils", "doctest", "email", "encodings",
   "enum", "errno", "faulthandler", "fcntl", "filecmp", "fileinput",
   "fnmatch", "fractions", "ftplib", "functools", "gc", "getopt",
   "getpass", "gettext", "glob", "graphlib", "grp", "gzip", "hashlib",
   "heapq", "hmac", "html", "http", "idlelib", "imaplib", "imghdr",
   "imp", "importlib", "inspect", "io", "ipaddress", "itertools",
   "json", "keyword", "lib2to3", "linecache", "locale", "logging",
   "lzma", "mailbox", "mailcap", "marshal", "math", "mimetypes",
   "mmap", "modulefinder", "multiprocessing", "netrc", "nis",
   "nntplib", "numbers", "operator", "optparse", "os", "ossaudiodev",
   "pathlib", "pdb", "pickle", "pickletools", "pipes", "pkgutil",
   "platform", "plistlib", "poplib", "posix", "posixpath", "pprint",
   "profile", "pstats", "pty", "pwd", "py_compile", "pyclbr",
   "pydoc", "queue", "quopri", "random", "re", "readline", "reprlib",
   "resource", "rlcompleter", "runpy", "sched", "secrets", "select",
   "selectors", "shelve", "shlex", "shutil", "signal", "site",
   "smtpd", "smtplib", "sndhdr", "socket", "socketserver", "spwd",
   "sqlite3", "ssl", "stat", "statistics", "string", "stringprep",
   "struct", "subprocess", "sunau", "symtable", "sys", "sysconfig",
   "syslog", "tabnanny", "tarfile", "telnetlib", "tempfile", "termios",
   "test", "textwrap", "threading", "time", "timeit", "tkinter",
   "token", "tokenize", "tomllib", "trace", "traceback", "tracemalloc",
   "tty", "turtle", "turtledemo", "types", "typing", "unicodedata",
   "unittest", "urllib", "uu", "uuid", "venv", "warnings", "wave",
   "weakref", "webbrowser", "winreg", "winsound", "wsgiref", "xdrlib",
   "xml", "xmlrpc", "zipapp", "zipfile", "zipimport", "zlib",
   "typing_extensions", "_thread", "__future__"]

/-- Resolver state (`ImportResolver`). -/
structure ImportResolver where
  project_root : FsPath
  stdlib_modules : List String
  third_party_modules : List String
  deriving DecidableEq, Repr

/-- `ImportResolver::new`. -/
def ImportResolver.new (project_root : FsPath) : ImportResolver :=
  { project_root := project_root, stdlib_modules := stdlibModules,
    third_party_modules := [] }

/-- `ImportResolver::is_stdlib`: the top-level name is in the
standard-library set. -/
def ImportResolver.is_stdlib (r : ImportResolver) (module : String) : Bool :=
  let top := (strSplit module '.').headD module
  top ∈ r.stdlib_modules

/-- `ImportResolver::is_third_party`. -/
def ImportResolver.is_third_party (r : ImportResolver) (module : String) : Bool :=
  let top := (strSplit module '.').headD module
  top ∈ r.third_party_modules

/-- `ImportResolver::path_to_module`: strips the project root and joins
the remaining components with dots. -/
def ImportResolver.path_to_module (r : ImportResolver) (p : FsPath) : String :=
  let rel := (p.stripBase r.project_root).getD p
  String.intercalate "." rel.componentsAll

/-- `ImportResolver::find_module_file`: probe for a direct `.py` file,
then for a package directory's `__init__.py`. -/
def findModuleFile (fsys : List FsPath) (module_path : FsPath) : Option FsPath :=
  let py_file := module_path.withExtension "py"
  if py_file ∈ fsys then some py_file
  else
    let init_file := module_path.join ⟨false, ["__init__.py"]⟩
    if init_file ∈ fsys then some init_file else none

/-- `ImportResolver::find_local_module`. -/
def ImportResolver.find_local_module (r : ImportResolver) (fsys : List FsPath)
    (module : String) : Option FsPath :=
  findModuleFile fsys (r.project_root.join (FsPath.ofString (strReplaceChar module '.' '/')))

/-- The ascent loop in `resolve_relative` (`for _ in 1..level`): steps
to the parent directory `level - 1` times, staying put when no parent
exists. -/
def ascendLoop (d : FsPath) (level : Nat) : FsPath :=
  (fun p => (FsPath.parent p).getD p)^[level - 1] d

/-- `ImportResolver::resolve_relative`: ascends from the current file's
directory, derives the full module name, and probes the filesystem
directly; classifies `Local` when a file is found and `Unknown`
otherwise. -/
def ImportResolver.resolve_relative (r : ImportResolver) (fsys : List FsPath)
    (imp : Import) (current_file : FsPath) (level : Nat) : ResolvedImport :=
  let current_dir := (current_file.parent).getD ⟨false, []⟩
  let base_dir := ascendLoop current_dir level
  let full_module :=
    if imp.module = "" then r.path_to_module base_dir
    else
      let base_module := r.path_to_module base_dir
      if base_module = "" then imp.module
      else base_module ++ "." ++ imp.module
  let module_path :=
    if imp.module = "" then base_dir
    else base_dir.join (FsPath.ofString (strReplaceChar imp.module '.' '/'))
  let resolved_path := findModuleFile fsys module_path
  { import_ := imp
    import_type := if resolved_path.isSome then .Local else .Unknown
    resolved_path := resolved_path
    resolved_module := full_module }

/-- `ImportResolver::resolve`: relative imports are delegated to
`resolve_relative`; otherwise stdlib, then known third-party, then
local resolution, with a `ThirdParty` fallback. -/
def ImportResolver.resolve (r : ImportResolver) (fsys : List FsPath)
    (imp : Import) (current_file : FsPath) : ResolvedImport :=
  match imp.kind with
  | .Relative level => r.resolve_relative fsys imp current_file level
  | _ =>
    if r.is_stdlib imp.module then
      { import_ := imp, import_type := .Stdlib, resolved_path := none,
        resolved_module := imp.module }
    else if r.is_third_party imp.module then
      { import_ := imp, import_type := .ThirdParty, resolved_path := none,
        resolved_module := imp.module }
    else
      match r.find_local_module fsys imp.module with
      | some path =>
        { import_ := imp, import_type := .Local, resolved_path := some path,
          resolved_module := imp.module }
      | none =>
        { import_ := imp, import_type := .ThirdParty, resolved_path := none,
          resolved_module := imp.module }

/-! ## Module detector (`src/analysis/modules.rs`) -/

/-- Type of module based on common naming patterns (`ModuleType`). -/
inductive ModuleType where
  | Models
  | Views
  | Services
  | Utils
  | Api
  | Tests
  | Config
  | Core
  | Generic
  deriving DecidableEq, Repr

/-- `ModuleType::from_name`: case-insensitive keyword table. -/
def ModuleType.from_name (name : String) : ModuleType :=
  let lower := strToLower name
  if lower = "models" ∨ lower = "schemas" ∨ lower = "entities" ∨ lower = "domain" then .Models
  else if lower = "views" ∨ lower = "templates" ∨ lower = "pages" ∨ lower = "ui" then .Views
  else if lower = "services" ∨ lower = "handlers" ∨ lower = "controllers" ∨ lower = "actions" then .Services
  else if lower = "utils" ∨ lower = "helpers" ∨ lower = "lib" ∨ lower = "common" ∨ lower = "shared" then .Utils
  else if lower = "api" ∨ lower = "routes" ∨ lower = "endpoints" ∨ lower = "resources" then .Api
  else if lower = "tests" ∨ lower = "test" ∨ lower = "testing" ∨ lower = "specs" then .Tests
  else if lower = "config" ∨ lower = "settings" ∨ lower = "conf" ∨ lower = "configuration" then .Config
  else if lower = "core" ∨ lower = "main" ∨ lower = "app" ∨ lower = "application" then .Core
  else .Generic

/-- A detected module (`Module`). -/
structure Module where
  name : String
  path : FsPath
  files : List Nat
  is_package : Bool
  module_type : ModuleType
  outgoing_imports : Nat
  incoming_imports : Nat
  deriving DecidableEq, Repr

/-- `Module::coupling_score`: import density.  The Rust function
computes in `f64`; it is modelled in exact rational arithmetic. -/
def Module.coupling_score (m : Module) : ℚ :=
  if m.files.isEmpty then 0
  else ((m.outgoing_imports : ℚ) + (m.incoming_imports : ℚ)) / (m.files.length : ℚ)

/-- Detects and groups files into modules (`ModuleDetector`). -/
structure ModuleDetector where
  min_files : Nat
  deriving DecidableEq, Repr

/-- `ModuleDetector::new`: default minimum of one file per module. -/
def ModuleDetector.new : ModuleDetector := { min_files := 1 }

/-- `HashMap::entry(k).or_default().push(v)` on the grouping map. -/
def pushGroup : List (FsPath × List Nat) → FsPath → Nat → List (FsPath × List Nat)
  | [], k, v => [(k, [v])]
  | (k', l) :: rest, k, v =>
    if k' = k then (k', l ++ [v]) :: rest else (k', l) :: pushGroup rest k v

/-- The grouping loop of `ModuleDetector::detect`: assigns every file
with a parent directory to that directory's bucket and records
directories containing an `__init__.py`. -/
def detectLoop (project_root : FsPath) :
    List (Nat × FileNode) → List (FsPath × List Nat) → List (FsPath × Bool) →
    List (FsPath × List Nat) × List (FsPath × Bool)
  | [], dirFiles, dirInit => (dirFiles, dirInit)
  | (file_id, node) :: rest, dirFiles, dirInit =>
    let file_path := if node.path.absolute then node.path else project_root.join node.path
    match file_path.parent with
    | none => detectLoop project_root rest dirFiles dirInit
    | some parentDir =>
      let relative_parent := (parentDir.stripBase project_root).getD parentDir
      let dirFiles' := pushGroup dirFiles relative_parent file_id
      let dirInit' :=
        if node.path.fileName = some "__init__.py" then
          insertR dirInit relative_parent true
        else dirInit
      detectLoop project_root rest dirFiles' dirInit'

/-- `ModuleDetector::path_to_module_name`: dots between components,
`"root"` for the empty path. -/
def detectorModuleName (path : FsPath) : String :=
  let components := path.componentsAll
  if components.isEmpty then "root" else String.intercalate "." components

/-- Comparator used to model `Vec::sort_by(|a, b| a.path.cmp(&b.path))`. -/
def listLeStr : List String → List String → Bool
  | [], _ => true
  | _ :: _, [] => false
  | x :: xs, y :: ys => if x = y then listLeStr xs ys else chLt x.data y.data

/-- Path order on modules. -/
def moduleLe (a b : Module) : Bool :=
  listLeStr a.path.componentsAll b.path.componentsAll

/-- Insertion into a sorted list (stable). -/
def insertSorted {α : Type} (le : α → α → Bool) (a : α) : List α → List α
  | [] => [a]
  | b :: bs => if le a b then a :: b :: bs else b :: insertSorted le a bs

/-- Stable sort modelling `Vec::sort_by`. -/
def sortBy {α : Type} (le : α → α → Bool) : List α → List α
  | [] => []
  | a :: as' => insertSorted le a (sortBy le as')

/-- `ModuleDetector::detect`: group files by containing directory, drop
directories under the minimum size, build `Module` values, sort by path. -/
def ModuleDetector.detect (d : ModuleDetector) (g : CodeGraph)
    (project_root : FsPath) : List Module :=
  let grouped := detectLoop project_root g.files [] []
  let modules :=
    (grouped.1.filter fun kv => d.min_files ≤ kv.2.length).map fun kv =>
      { name := detectorModuleName kv.1
        path := kv.1
        files := kv.2
        is_package := (findVal grouped.2 kv.1).getD false
        module_type :=
          match kv.1.fileName with
          | some n => ModuleType.from_name n
          | none => .Generic
        outgoing_imports := 0
        incoming_imports := 0 : Module }
  sortBy moduleLe modules

/-! ## Analysis orchestrator (`src/analysis/mod.rs`) -/

/-- Supported programming languages (`Language`). -/
inductive Language where
  | Python
  | JavaScript
  | TypeScript
  | Rust
  | Go
  deriving DecidableEq, Repr

/-- `Language::from_extension`. -/
def Language.from_extension (ext : String) : Option Language :=
  match strToLower ext with
  | "py" => some .Python
  | "js" | "jsx" | "mjs" | "cjs" => some .JavaScript
  | "ts" | "tsx" | "mts" | "cts" => some .TypeScript
  | "rs" => some .Rust
  | "go" => some .Go
  | _ => none

/-- The extension list used by `Analyzer::path_to_module_name`. -/
def knownExtensions : List String :=
  [".py", ".js", ".jsx", ".ts", ".tsx", ".mjs", ".cjs", ".mts", ".cts", ".rs", ".go"]

/-- The extension-trimming loop of `Analyzer::path_to_module_name`:
the first matching extension is trimmed from the end. -/
def trimKnownExt : List String → String → String
  | [], s => s
  | e :: es, s => if strEndsWith s e then trimEndMatches s e else trimKnownExt es s

/-- `Analyzer::path_to_module_name`: strips the project root, removes
the source extension, collapses language-specific index files, and
joins with the language's separator. -/
def analyzerModuleName (path root : FsPath) (language : Option Language) : String :=
  let relative := (path.stripBase root).getD path
  let parts := relative.componentsAll
  let parts :=
    match parts.getLast? with
    | none => parts
    | some last => parts.dropLast ++ [trimKnownExt knownExtensions last]
  let parts :=
    match language with
    | some .Python => if parts.getLast? = some "__init__" then parts.dropLast else parts
    | some .JavaScript | some .TypeScript =>
      if parts.getLast? = some "index" then parts.dropLast else parts
    | some .Rust =>
      if parts.getLast? = some "mod" ∨ parts.getLast? = some "lib" then
        parts.dropLast
      else parts
    | some .Go => parts
    | none => parts
  match language with
  | some .Rust => String.intercalate "::" parts
  | some .JavaScript | some .TypeScript | some .Go => String.intercalate "/" parts
  | _ => String.intercalate "." parts

/-- `Analyzer::parse_and_build_graph`: one adapter call per file; a
parsed file is added to the graph with its derived module name, a
parse failure is recorded in the error map, and the loop continues.
The four per-language adapters are abstracted as function parameters. -/
def parse_and_build_graph
    (pyParse jsParse rsParse goParse : FsPath → Except String ParsedFile)
    (root : FsPath) :
    List FsPath → CodeGraph → List (FsPath × String) →
    CodeGraph × List (FsPath × String)
  | [], g, errs => (g, errs)
  | p :: ps, g, errs =>
    let ext := (p.extension).getD ""
    match Language.from_extension ext with
    | none => parse_and_build_graph pyParse jsParse rsParse goParse root ps g errs
    | some lang =>
      let parse_result :=
        match lang with
        | .Python => pyParse p
        | .JavaScript | .TypeScript => jsParse p
        | .Rust => rsParse p
        | .Go => goParse p
      match parse_result with
      | .ok parsed =>
        let parsed' := { parsed with module_name := analyzerModuleName p root (some lang) }
        parse_and_build_graph pyParse jsParse rsParse goParse root ps
          (g.add_file parsed').2 errs
      | .error e =>
        parse_and_build_graph pyParse jsParse rsParse goParse root ps g
          (insertR errs p e)

/-- The relative-import module-name computation inside
`Analyzer::resolve_imports`. -/
def resolvedModuleFor (node : FileNode) (imp : Import) : String :=
  match imp.kind with
  | .Relative level =>
    let parts := strSplit node.module_name '.'
    if level ≤ parts.length then
      let base := parts.take (parts.length - level)
      if imp.module = "" then String.intercalate "." base
      else String.intercalate "." base ++ "." ++ imp.module
    else imp.module
  | _ => imp.module

/-- The module-name → `FileId` map built by `Analyzer::resolve_imports`. -/
def moduleMapOf (g : CodeGraph) : List (String × Nat) :=
  g.files.foldl (fun acc kv => insertR acc kv.2.module_name kv.1) []

/-- The edges collected by `Analyzer::resolve_imports`: one Imports
edge per local import whose resolved module maps to a different file. -/
def edgesToAdd (g : CodeGraph) (fsys : List FsPath) (r : ImportResolver) :
    List Edge :=
  let module_map := moduleMapOf g
  g.files.flatMap fun kv =>
    kv.2.imports.flatMap fun imp =>
      let resolved := r.resolve fsys imp kv.2.path
      if resolved.import_type = .Local then
        match findVal module_map (resolvedModuleFor kv.2 imp) with
        | some target_id => if target_id ≠ kv.1 then [Edge.imports kv.1 target_id] else []
        | none => []
      else []

/-- `Analyzer::resolve_imports`: appends all collected edges. -/
def resolve_imports (g : CodeGraph) (fsys : List FsPath) (r : ImportResolver) :
    CodeGraph :=
  (edgesToAdd g fsys r).foldl CodeGraph.add_edge g

/-! ## Claim C1: relative imports do not re-enter the general algorithm -/

/-- C1 counterexample: a relative import whose target does not resolve
locally (empty filesystem) is classified `Unknown`, while the general
case on the same derived absolute module path classifies `ThirdParty`;
the resolver does not re-enter the general algorithm for relative
imports. -/
theorem c1_counterexample :
    ((ImportResolver.new ⟨true, ["proj"]⟩).resolve []
        (Import.relative "foo" [] 1 1)
        ⟨true, ["proj", "pkg", "main.py"]⟩).resolved_module = "pkg.foo" ∧
    ((ImportResolver.new ⟨true, ["proj"]⟩).resolve []
        (Import.relative "foo" [] 1 1)
        ⟨true, ["proj", "pkg", "main.py"]⟩).import_type = .Unknown ∧
    ((ImportResolver.new ⟨true, ["proj"]⟩).resolve []
        (Import.simple "pkg.foo" 1)
        ⟨true, ["proj", "pkg", "main.py"]⟩).import_type = .ThirdParty ∧
    ImportType.Unknown ≠ ImportType.ThirdParty := by
  refine ⟨rfl, rfl, ?_, by decide⟩
  decide

/-- C1 amended: `resolve` delegates every relative import to
`resolve_relative`, which probes the filesystem directly and classifies
`Local` exactly when a module file or package-index file is found, and
`Unknown` otherwise — never the general case's classification. -/
theorem c1_relative_resolution (r : ImportResolver) (fsys : List FsPath)
    (imp : Import) (cf : FsPath) (level : Nat)
    (h : imp.kind = .Relative level) :
    r.resolve fsys imp cf = r.resolve_relative fsys imp cf level ∧
    ((r.resolve fsys imp cf).import_type = .Local ∨
      (r.resolve fsys imp cf).import_type = .Unknown) ∧
    ((r.resolve fsys imp cf).import_type = .Local ↔
      (r.resolve fsys imp cf).resolved_path.isSome) := by
  have hres : r.resolve fsys imp cf = r.resolve_relative fsys imp cf level := by
    unfold ImportResolver.resolve
    rw [h]
  refine ⟨hres, ?_, ?_⟩ <;> rw [hres] <;>
    unfold ImportResolver.resolve_relative <;>
    cases hf : findModuleFile fsys
      (if imp.module = "" then
        ascendLoop ((cf.parent).getD ⟨false, []⟩) level
      else
        (ascendLoop ((cf.parent).getD ⟨false, []⟩) level).join
          (FsPath.ofString (strReplaceChar imp.module '.' '/'))) <;>
    simp [hf]

/-- C1 witness: the amended theorem applied at the concrete
counterexample input. -/
theorem c1_relative_resolution_witness :
    (ImportResolver.new ⟨true, ["proj"]⟩).resolve []
        (Import.relative "foo" [] 1 1) ⟨true, ["proj", "pkg", "main.py"]⟩ =
      (ImportResolver.new ⟨true, ["proj"]⟩).resolve_relative []
        (Import.relative "foo" [] 1 1) ⟨true, ["proj", "pkg", "main.py"]⟩ 1 ∧
    (((ImportResolver.new ⟨true, ["proj"]⟩).resolve []
        (Import.relative "foo" [] 1 1)
        ⟨true, ["proj", "pkg", "main.py"]⟩).import_type = .Local ∨
      ((ImportResolver.new ⟨true, ["proj"]⟩).resolve []
        (Import.relative "foo" [] 1 1)
        ⟨true, ["proj", "pkg", "main.py"]⟩).import_type = .Unknown) ∧
    (((ImportResolver.new ⟨true, ["proj"]⟩).resolve []
        (Import.relative "foo" [] 1 1)
        ⟨true, ["proj", "pkg", "main.py"]⟩).import_type = .Local ↔
      ((ImportResolver.new ⟨true, ["proj"]⟩).resolve []
        (Import.relative "foo" [] 1 1)
        ⟨true, ["proj", "pkg", "main.py"]⟩).resolved_path.isSome) :=
  c1_relative_resolution (ImportResolver.new ⟨true, ["proj"]⟩) []
    (Import.relative "foo" [] 1 1) ⟨true, ["proj", "pkg", "main.py"]⟩ 1 rfl

/-! ## Claim C2: `add_edge` and edge-endpoint validity -/

/-- C2 counterexample: `add_edge` appends unconditionally, so an edge
whose endpoints reference no existing node can be inserted into an
empty graph. -/
theorem c2_counterexample :
    (CodeGraph.new.add_edge (Edge.imports 0 1)).edges = [Edge.imports 0 1] ∧
    (CodeGraph.new.add_edge (Edge.imports 0 1)).nodePresent
      (Edge.imports 0 1).from_ = false ∧
    (CodeGraph.new.add_edge (Edge.imports 0 1)).nodePresent
      (Edge.imports 0 1).to_ = false := by
  decide

/-- C2 amended: `add_edge` performs no endpoint validation; it appends
the edge unconditionally and leaves every node collection unchanged,
so endpoint validity is established only by the caller. -/
theorem c2_add_edge_unconditional (g : CodeGraph) (e : Edge) :
    (g.add_edge e).edges = g.edges ++ [e] ∧
    (g.add_edge e).files = g.files ∧
    (g.add_edge e).classes = g.classes ∧
    (g.add_edge e).functions = g.functions :=
  ⟨rfl, rfl, rfl, rfl⟩

/-! ## Claim C3: lenient `ThirdParty` fallback for non-relative imports -/

/-- C3: a non-relative import that is neither stdlib nor known
third-party is classified `Local` with the resolved path when local
resolution finds a candidate, and `ThirdParty` with no path — never
`Unknown` — when it does not. -/
theorem c3_unresolved_fallback (r : ImportResolver) (fsys : List FsPath)
    (imp : Import) (cf : FsPath)
    (hrel : ∀ level, imp.kind ≠ .Relative level)
    (hstd : r.is_stdlib imp.module = false)
    (htp : r.is_third_party imp.module = false) :
    (r.find_local_module fsys imp.module = none →
      r.resolve fsys imp cf =
        { import_ := imp, import_type := .ThirdParty, resolved_path := none,
          resolved_module := imp.module }) ∧
    (∀ p, r.find_local_module fsys imp.module = some p →
      r.resolve fsys imp cf =
        { import_ := imp, import_type := .Local, resolved_path := some p,
          resolved_module := imp.module }) := by
  constructor
  · intro hnone
    cases hk : imp.kind with
    | Relative level => exact absurd hk (hrel level)
    | Direct => unfold ImportResolver.resolve; rw [hk]; simp [hstd, htp, hnone]
    | From => unfold ImportResolver.resolve; rw [hk]; simp [hstd, htp, hnone]
  · intro p hsome
    cases hk : imp.kind with
    | Relative level => exact absurd hk (hrel level)
    | Direct => unfold ImportResolver.resolve; rw [hk]; simp [hstd, htp, hsome]
    | From => unfold ImportResolver.resolve; rw [hk]; simp [hstd, htp, hsome]

/-- C3 witness: with project root `/proj`, the unseeded module
`mypkg` resolves `ThirdParty` on an empty filesystem and `Local` once
`/proj/mypkg.py` exists. -/
theorem c3_unresolved_fallback_witness :
    (ImportResolver.new ⟨true, ["proj"]⟩).resolve []
        (Import.simple "mypkg" 1) ⟨true, ["proj", "main.py"]⟩ =
      { import_ := Import.simple "mypkg" 1, import_type := .ThirdParty,
        resolved_path := none, resolved_module := "mypkg" } ∧
    (ImportResolver.new ⟨true, ["proj"]⟩).resolve
        [⟨true, ["proj", "mypkg.py"]⟩]
        (Import.simple "mypkg" 1) ⟨true, ["proj", "main.py"]⟩ =
      { import_ := Import.simple "mypkg" 1, import_type := .Local,
        resolved_path := some ⟨true, ["proj", "mypkg.py"]⟩,
        resolved_module := "mypkg" } :=
  ⟨(c3_unresolved_fallback (ImportResolver.new ⟨true, ["proj"]⟩) []
      (Import.simple "mypkg" 1) ⟨true, ["proj", "main.py"]⟩
      (fun _ h => by simp [Import.simple] at h) (by decide) (by decide)).1
    (by decide),
   (c3_unresolved_fallback (ImportResolver.new ⟨true, ["proj"]⟩)
      [⟨true, ["proj", "mypkg.py"]⟩]
      (Import.simple "mypkg" 1) ⟨true, ["proj", "main.py"]⟩
      (fun _ h => by simp [Import.simple] at h) (by decide) (by decide)).2
    ⟨true, ["proj", "mypkg.py"]⟩ (by decide)⟩

/-! ## Claim C6: relative-import level arithmetic -/

/-- The ascent loop drops exactly `k` trailing components when at
least `k` components are available. -/
theorem ascendLoop_iterate (k : Nat) (d : FsPath)
    (h : k ≤ d.components.length) :
    (fun p => (FsPath.parent p).getD p)^[k] d =
      ⟨d.absolute, d.components.take (d.components.length - k)⟩ := by
  induction k generalizing d with
  | zero =>
    cases d with
    | mk a c => simp
  | succ k ih =>
    rw [Function.iterate_succ_apply]
    obtain ⟨a, c⟩ := d
    dsimp only at h ⊢
    cases c with
    | nil => simp at h
    | cons x xs =>
      simp only [List.length_cons] at h
      have hyp : (FsPath.parent ⟨a, x :: xs⟩).getD ⟨a, x :: xs⟩ =
          ⟨a, (x :: xs).dropLast⟩ := rfl
      rw [hyp, ih ⟨a, (x :: xs).dropLast⟩
        (by simp only [List.length_dropLast, List.length_cons]; omega)]
      simp only [List.length_dropLast, List.length_cons, Nat.add_sub_cancel]
      have hcomp : (x :: xs).dropLast.take (xs.length - k) =
          (x :: xs).take (xs.length + 1 - (k + 1)) := by
        rw [List.dropLast_eq_take, List.take_take, List.length_cons,
          Nat.add_sub_cancel]
        have hmin : (xs.length - k) ⊓ xs.length = xs.length - k := by
          rw [min_eq_left (by omega)]
        rw [hmin]
        congr 1
        omega
      rw [hcomp]

/-- C6: for a relative import at level `L`, the resolver ascends
exactly `L − 1` parent directories from the current file's containing
directory (`ascendLoop` drops `L − 1` trailing components when they
are available), level 1 stays in the containing directory itself, and
`resolve` routes every relative import through `resolve_relative`
where this ascent happens. -/
theorem c6_relative_level_arithmetic (d : FsPath) (L : Nat)
    (_h1 : 1 ≤ L) (h2 : L - 1 ≤ d.components.length) :
    ascendLoop d L =
      ⟨d.absolute, d.components.take (d.components.length - (L - 1))⟩ ∧
    (∀ d' : FsPath, ascendLoop d' 1 = d') ∧
    (∀ (r : ImportResolver) (fsys : List FsPath) (imp : Import) (cf : FsPath)
        (level : Nat), imp.kind = .Relative level →
      r.resolve fsys imp cf = r.resolve_relative fsys imp cf level) := by
  refine ⟨ascendLoop_iterate (L - 1) d h2, ?_, ?_⟩
  · intro d'
    cases d' with
    | mk a c => simp [ascendLoop]
  · intro r fsys imp cf level h
    unfold ImportResolver.resolve
    rw [h]

/-- C6 witness: a level-2 relative import from directory `/a/b/c`
ascends one parent, to `/a/b`. -/
theorem c6_relative_level_arithmetic_witness :
    ascendLoop ⟨true, ["a", "b", "c"]⟩ 2 =
      ⟨true, (["a", "b", "c"] : List String).take
        ((["a", "b", "c"] : List String).length - (2 - 1))⟩ ∧
    (∀ d' : FsPath, ascendLoop d' 1 = d') ∧
    (∀ (r : ImportResolver) (fsys : List FsPath) (imp : Import) (cf : FsPath)
        (level : Nat), imp.kind = .Relative level →
      r.resolve fsys imp cf = r.resolve_relative fsys imp cf level) :=
  c6_relative_level_arithmetic ⟨true, ["a", "b", "c"]⟩ 2 (by decide) (by decide)

/-! ## Claim C10: the import-resolution pass creates no self-loops -/

/-- Folding `add_edge` appends the edge list. -/
theorem foldl_add_edge_edges (es : List Edge) (g : CodeGraph) :
    (es.foldl CodeGraph.add_edge g).edges = g.edges ++ es := by
  induction es generalizing g with
  | nil => simp
  | cons e rest ih =>
    rw [List.foldl_cons, ih]
    simp [CodeGraph.add_edge]

/-- C10: every edge produced by the import-resolution pass joins two
distinct file ids — an import of a file's own module is skipped — and
the pass only appends these edges to the graph. -/
theorem c10_no_self_import_edges (g : CodeGraph) (fsys : List FsPath)
    (r : ImportResolver) :
    (∀ e ∈ edgesToAdd g fsys r, e.from_ ≠ e.to_) ∧
    (resolve_imports g fsys r).edges = g.edges ++ edgesToAdd g fsys r := by
  constructor
  · intro e he
    unfold edgesToAdd at he
    rw [List.mem_flatMap] at he
    obtain ⟨kv, _, he⟩ := he
    rw [List.mem_flatMap] at he
    obtain ⟨imp, _, he⟩ := he
    dsimp only at he
    split at he
    · split at he
      · rename_i target hfind
        split at he
        · rename_i hne
          rw [List.mem_singleton] at he
          subst he
          simp only [Edge.imports, ne_eq, NodeId.file.injEq]
          intro hcontra
          exact hne hcontra.symm
        · simp at he
      · simp at he
    · simp at he
  · exact foldl_add_edge_edges _ g

/-- Concrete two-file fixture for the C10 witness: `main` imports the
sibling module `utils`. -/
def c10MainNode : FileNode :=
  { path := ⟨true, ["proj", "main.py"]⟩, module_name := "main",
    docstring := none, total_lines := 0, code_lines := 0, comment_lines := 0,
    classes := [], functions := [], imports := [Import.simple "utils" 1],
    constants := [] }

/-- Concrete `utils` node for the C10 witness. -/
def c10UtilsNode : FileNode :=
  { path := ⟨true, ["proj", "utils.py"]⟩, module_name := "utils",
    docstring := none, total_lines := 0, code_lines := 0, comment_lines := 0,
    classes := [], functions := [], imports := [], constants := [] }

/-- Concrete graph for the C10 witness. -/
def c10Graph : CodeGraph :=
  { files := [(0, c10MainNode), (1, c10UtilsNode)], classes := [],
    functions := [], edges := [], path_to_file := [], module_to_file := [],
    next_file_id := 2, next_class_id := 0, next_function_id := 0 }

/-- C10 witness: on the concrete fixture the pass adds the edge
`0 → 1`, and the theorem shows its endpoints differ. -/
theorem c10_no_self_import_edges_witness :
    Edge.imports 0 1 ∈
      edgesToAdd c10Graph [⟨true, ["proj", "utils.py"]⟩]
        (ImportResolver.new ⟨true, ["proj"]⟩) ∧
    (Edge.imports 0 1).from_ ≠ (Edge.imports 0 1).to_ :=
  have hmem : Edge.imports 0 1 ∈
      edgesToAdd c10Graph [⟨true, ["proj", "utils.py"]⟩]
        (ImportResolver.new ⟨true, ["proj"]⟩) := by decide
  ⟨hmem,
   (c10_no_self_import_edges c10Graph [⟨true, ["proj", "utils.py"]⟩]
      (ImportResolver.new ⟨true, ["proj"]⟩)).1 _ hmem⟩

/-! ## Claim C7: identifier monotonicity -/

/-- File-id invariant: the file map's keys are `0, ..., counter - 1`
in allocation order. -/
def fileIdsInv (g : CodeGraph) : Prop :=
  g.files.map Prod.fst = List.range g.next_file_id

/-- Class-id invariant. -/
def classIdsInv (g : CodeGraph) : Prop :=
  g.classes.map Prod.fst = List.range g.next_class_id

/-- Function-id invariant. -/
def funIdsInv (g : CodeGraph) : Prop :=
  g.functions.map Prod.fst = List.range g.next_function_id

/-- Inserting a fresh key appends. -/
theorem insertR_fresh {α β : Type} [DecidableEq α] (l : List (α × β)) (k : α)
    (v : β) (h : k ∉ l.map Prod.fst) : insertR l k v = l ++ [(k, v)] := by
  simp [insertR, h]

/-- Inserting the key equal to the counter extends the key range by one. -/
theorem insertR_range {β : Type} (l : List (Nat × β)) (n : Nat) (v : β)
    (h : l.map Prod.fst = List.range n) :
    (insertR l n v).map Prod.fst = List.range (n + 1) := by
  have hfresh : n ∉ l.map Prod.fst := by
    rw [h]
    simp [List.mem_range]
  rw [insertR_fresh _ _ _ hfresh]
  simp only [List.map_append, List.map_cons, List.map_nil, h]
  rw [List.range_succ]

/-- `add_function_internal` returns the current function counter,
preserves the function-id invariant and every other field, and bumps
the counter. -/
theorem add_function_internal_spec (g : CodeGraph) (f : Function)
    (file_id : Nat) (class_id : Option Nat) (h : funIdsInv g) :
    (g.add_function_internal f file_id class_id).1 = g.next_function_id ∧
    funIdsInv (g.add_function_internal f file_id class_id).2 ∧
    (g.add_function_internal f file_id class_id).2.files = g.files ∧
    (g.add_function_internal f file_id class_id).2.classes = g.classes ∧
    (g.add_function_internal f file_id class_id).2.next_file_id = g.next_file_id ∧
    (g.add_function_internal f file_id class_id).2.next_class_id = g.next_class_id ∧
    (g.add_function_internal f file_id class_id).2.next_function_id =
      g.next_function_id + 1 :=
  ⟨rfl, insertR_range g.functions g.next_function_id _ h, rfl, rfl, rfl, rfl, rfl⟩

/-- The method loop preserves the function-id invariant and the
non-function fields, bumping the function counter once per method. -/
theorem addMethodsAux_spec (file_id class_id : Nat) (ms : List Function)
    (g : CodeGraph) (h : funIdsInv g) :
    funIdsInv (addMethodsAux file_id class_id ms g).2 ∧
    (addMethodsAux file_id class_id ms g).2.files = g.files ∧
    (addMethodsAux file_id class_id ms g).2.classes = g.classes ∧
    (addMethodsAux file_id class_id ms g).2.next_file_id = g.next_file_id ∧
    (addMethodsAux file_id class_id ms g).2.next_class_id = g.next_class_id ∧
    (addMethodsAux file_id class_id ms g).2.next_function_id =
      g.next_function_id + ms.length := by
  induction ms generalizing g with
  | nil => exact ⟨h, rfl, rfl, rfl, rfl, rfl⟩
  | cons m ms ih =>
    have hstep : (addMethodsAux file_id class_id (m :: ms) g).2 =
        (addMethodsAux file_id class_id ms
          (g.add_function_internal m file_id (some class_id)).2).2 := rfl
    obtain ⟨_, hinv, hfi, hcl, hnf, hnc, hnfun⟩ :=
      add_function_internal_spec g m file_id (some class_id) h
    obtain ⟨ihinv, ihfi, ihcl, ihnf, ihnc, ihnfun⟩ :=
      ih (g.add_function_internal m file_id (some class_id)).2 hinv
    rw [hstep]
    refine ⟨ihinv, by rw [ihfi, hfi], by rw [ihcl, hcl], by rw [ihnf, hnf],
      by rw [ihnc, hnc], ?_⟩
    rw [ihnfun, hnfun]
    simp only [List.length_cons]
    omega

/-- `add_class_internal` returns the current class counter, preserves
the class- and function-id invariants and the file fields, and bumps
the class counter. -/
theorem add_class_internal_spec (g : CodeGraph) (c : Class) (file_id : Nat)
    (hc : classIdsInv g) (hf : funIdsInv g) :
    (g.add_class_internal c file_id).1 = g.next_class_id ∧
    classIdsInv (g.add_class_internal c file_id).2 ∧
    funIdsInv (g.add_class_internal c file_id).2 ∧
    (g.add_class_internal c file_id).2.files = g.files ∧
    (g.add_class_internal c file_id).2.next_file_id = g.next_file_id ∧
    (g.add_class_internal c file_id).2.next_class_id = g.next_class_id + 1 := by
  have hf1 : funIdsInv { g with next_class_id := g.next_class_id + 1 } := hf
  obtain ⟨minv, mfi, mcl, mnf, mnc, mnfun⟩ :=
    addMethodsAux_spec file_id g.next_class_id c.methods
      { g with next_class_id := g.next_class_id + 1 } hf1
  refine ⟨rfl, ?_, minv, mfi, mnf, mnc⟩
  show (insertR (addMethodsAux file_id g.next_class_id c.methods
      { g with next_class_id := g.next_class_id + 1 }).2.classes
      g.next_class_id _).map Prod.fst =
    List.range (addMethodsAux file_id g.next_class_id c.methods
      { g with next_class_id := g.next_class_id + 1 }).2.next_class_id
  rw [mnc]
  exact insertR_range _ _ _ (by rw [mcl]; exact hc)

/-- The class loop preserves the class- and function-id invariants and
the file fields, bumping the class counter once per class. -/
theorem addClassesAux_spec (file_id : Nat) (cs : List Class)
    (g : CodeGraph) (hc : classIdsInv g) (hf : funIdsInv g) :
    classIdsInv (addClassesAux file_id cs g).2 ∧
    funIdsInv (addClassesAux file_id cs g).2 ∧
    (addClassesAux file_id cs g).2.files = g.files ∧
    (addClassesAux file_id cs g).2.next_file_id = g.next_file_id ∧
    (addClassesAux file_id cs g).2.next_class_id =
      g.next_class_id + cs.length := by
  induction cs generalizing g with
  | nil => exact ⟨hc, hf, rfl, rfl, rfl⟩
  | cons c cs ih =>
    have hstep : (addClassesAux file_id (c :: cs) g).2 =
        (addClassesAux file_id cs (g.add_class_internal c file_id).2).2 := rfl
    obtain ⟨_, sinvc, sinvf, sfi, snf, snc⟩ :=
      add_class_internal_spec g c file_id hc hf
    obtain ⟨ihc, ihf, ihfi, ihnf, ihnc⟩ :=
      ih (g.add_class_internal c file_id).2 sinvc sinvf
    rw [hstep]
    refine ⟨ihc, ihf, by rw [ihfi, sfi], by rw [ihnf, snf], ?_⟩
    rw [ihnc, snc]
    simp only [List.length_cons]
    omega

/-- The top-level function loop preserves the invariants and the file
fields, bumping the function counter once per function. -/
theorem addFunsAux_spec (file_id : Nat) (fnl : List Function)
    (g : CodeGraph) (hc : classIdsInv g) (hf : funIdsInv g) :
    classIdsInv (addFunsAux file_id fnl g).2 ∧
    funIdsInv (addFunsAux file_id fnl g).2 ∧
    (addFunsAux file_id fnl g).2.files = g.files ∧
    (addFunsAux file_id fnl g).2.next_file_id = g.next_file_id ∧
    (addFunsAux file_id fnl g).2.next_class_id = g.next_class_id := by
  induction fnl generalizing g with
  | nil => exact ⟨hc, hf, rfl, rfl, rfl⟩
  | cons f fnl ih =>
    have hstep : (addFunsAux file_id (f :: fnl) g).2 =
        (addFunsAux file_id fnl (g.add_function_internal f file_id none).2).2 := rfl
    obtain ⟨_, sinvf, sfi, scl, snf, snc, _⟩ :=
      add_function_internal_spec g f file_id none hf
    have sinvc : classIdsInv (g.add_function_internal f file_id none).2 := by
      show (g.add_function_internal f file_id none).2.classes.map Prod.fst =
        List.range (g.add_function_internal f file_id none).2.next_class_id
      rw [scl, snc]
      exact hc
    obtain ⟨ihc, ihf, ihfi, ihnf, ihnc⟩ :=
      ih (g.add_function_internal f file_id none).2 sinvc sinvf
    rw [hstep]
    exact ⟨ihc, ihf, by rw [ihfi, sfi], by rw [ihnf, snf], by rw [ihnc, snc]⟩

/-- `add_file` returns the current file counter, preserves all three
id invariants, and bumps the file counter. -/
theorem add_file_spec (g : CodeGraph) (p : ParsedFile)
    (hfl : fileIdsInv g) (hc : classIdsInv g) (hf : funIdsInv g) :
    (g.add_file p).1 = g.next_file_id ∧
    fileIdsInv (g.add_file p).2 ∧
    classIdsInv (g.add_file p).2 ∧
    funIdsInv (g.add_file p).2 ∧
    (g.add_file p).2.next_file_id = g.next_file_id + 1 := by
  have hfl1 : ({ g with next_file_id := g.next_file_id + 1 } : CodeGraph).files =
      g.files := rfl
  obtain ⟨cinvc, cinvf, cfi, cnf, _⟩ :=
    addClassesAux_spec g.next_file_id p.classes
      { g with next_file_id := g.next_file_id + 1 } hc hf
  obtain ⟨finvc, finvf, ffi, fnf, _⟩ :=
    addFunsAux_spec g.next_file_id p.functions
      (addClassesAux g.next_file_id p.classes
        { g with next_file_id := g.next_file_id + 1 }).2 cinvc cinvf
  refine ⟨rfl, ?_, finvc, finvf, ?_⟩
  · show (insertR (addFunsAux g.next_file_id p.functions
        (addClassesAux g.next_file_id p.classes
          { g with next_file_id := g.next_file_id + 1 }).2).2.files
        g.next_file_id _).map Prod.fst =
      List.range (addFunsAux g.next_file_id p.functions
        (addClassesAux g.next_file_id p.classes
          { g with next_file_id := g.next_file_id + 1 }).2).2.next_file_id
    rw [fnf, cnf]
    show _ = List.range
      (({ g with next_file_id := g.next_file_id + 1 } : CodeGraph).next_file_id)
    refine insertR_range _ _ _ ?_
    rw [ffi, cfi, hfl1]
    exact hfl
  · show (addFunsAux g.next_file_id p.functions
      (addClassesAux g.next_file_id p.classes
        { g with next_file_id := g.next_file_id + 1 }).2).2.next_file_id = _
    rw [fnf, cnf]

/-- Sequential graph construction collecting the returned `FileId`s
(the `for path in files` loop over `add_file` calls). -/
def buildAux : List ParsedFile → CodeGraph → List Nat × CodeGraph
  | [], g => ([], g)
  | p :: ps, g =>
    let r := g.add_file p
    let rest := buildAux ps r.2
    (r.1 :: rest.1, rest.2)

/-- `buildAux` preserves the id invariants and returns the file ids
`start, start + 1, ...` in order. -/
theorem buildAux_spec (ps : List ParsedFile) (g : CodeGraph)
    (hfl : fileIdsInv g) (hc : classIdsInv g) (hf : funIdsInv g) :
    (buildAux ps g).1 = List.range' g.next_file_id ps.length ∧
    fileIdsInv (buildAux ps g).2 ∧
    classIdsInv (buildAux ps g).2 ∧
    funIdsInv (buildAux ps g).2 ∧
    (buildAux ps g).2.next_file_id = g.next_file_id + ps.length := by
  induction ps generalizing g with
  | nil => exact ⟨rfl, hfl, hc, hf, rfl⟩
  | cons p ps ih =>
    have hstep2 : (buildAux (p :: ps) g).2 = (buildAux ps (g.add_file p).2).2 := rfl
    have hstep1 : (buildAux (p :: ps) g).1 =
        (g.add_file p).1 :: (buildAux ps (g.add_file p).2).1 := rfl
    obtain ⟨sret, sfl, sc, sf, snf⟩ := add_file_spec g p hfl hc hf
    obtain ⟨ihret, ihfl, ihc, ihf, ihnf⟩ := ih (g.add_file p).2 sfl sc sf
    rw [hstep1, hstep2]
    refine ⟨?_, ihfl, ihc, ihf, ?_⟩
    · rw [ihret, sret, snf]
      simp only [List.length_cons]
      rw [List.range'_succ]
    · rw [ihnf, snf]
      simp only [List.length_cons]
      omega

/-- C7: over any sequence of `add_file` calls starting from the empty
graph, the returned `FileId`s are `0, 1, 2, ...` in order — strictly
increasing, never repeated — and the file, class and function maps'
keys are exactly the ranges of their counters, so no identifier of any
kind is ever repeated, decreased, reused or reassigned. -/
theorem c7_identifier_monotonicity (ps : List ParsedFile) :
    (buildAux ps CodeGraph.new).1 = List.range ps.length ∧
    (buildAux ps CodeGraph.new).1.Sorted (· < ·) ∧
    (buildAux ps CodeGraph.new).2.files.map Prod.fst =
      List.range (buildAux ps CodeGraph.new).2.next_file_id ∧
    (buildAux ps CodeGraph.new).2.classes.map Prod.fst =
      List.range (buildAux ps CodeGraph.new).2.next_class_id ∧
    (buildAux ps CodeGraph.new).2.functions.map Prod.fst =
      List.range (buildAux ps CodeGraph.new).2.next_function_id := by
  obtain ⟨hret, hfl, hcls, hfun, _⟩ :=
    buildAux_spec ps CodeGraph.new rfl rfl rfl
  have hrange : (buildAux ps CodeGraph.new).1 = List.range ps.length := by
    rw [hret]
    show List.range' 0 ps.length = _
    rw [List.range_eq_range']
  exact ⟨hrange, by rw [hrange]; exact List.sorted_lt_range ps.length,
    hfl, hcls, hfun⟩

/-! ## Claim C5: batch accounting of parsed files and parse errors -/

/-- One step of the batch loop, written out for rewriting. -/
theorem parse_and_build_graph_cons
    (py js rs go : FsPath → Except String ParsedFile) (root : FsPath)
    (p : FsPath) (ps : List FsPath) (g : CodeGraph)
    (errs : List (FsPath × String)) :
    parse_and_build_graph py js rs go root (p :: ps) g errs =
      (match Language.from_extension ((p.extension).getD "") with
       | none => parse_and_build_graph py js rs go root ps g errs
       | some lang =>
         match (match lang with
                | .Python => py p
                | .JavaScript | .TypeScript => js p
                | .Rust => rs p
                | .Go => go p) with
         | .ok parsed =>
           parse_and_build_graph py js rs go root ps
             (g.add_file
               { parsed with
                 module_name := analyzerModuleName p root (some lang) }).2 errs
         | .error e =>
           parse_and_build_graph py js rs go root ps g (insertR errs p e)) := rfl

/-- The batch loop puts each supported, not-yet-seen file either into
the graph or into the error map, so the two counters together grow by
exactly the number of processed files. -/
theorem parse_and_build_graph_spec
    (py js rs go : FsPath → Except String ParsedFile) (root : FsPath)
    (files : List FsPath) (g : CodeGraph) (errs : List (FsPath × String))
    (hfl : fileIdsInv g) (hc : classIdsInv g) (hf : funIdsInv g)
    (hnd : files.Nodup)
    (hsupp : ∀ p ∈ files, Language.from_extension ((p.extension).getD "") ≠ none)
    (hdisj : ∀ p ∈ files, p ∉ errs.map Prod.fst) :
    (parse_and_build_graph py js rs go root files g errs).1.files.length +
        (parse_and_build_graph py js rs go root files g errs).2.length =
      g.files.length + errs.length + files.length ∧
    errs.length ≤ (parse_and_build_graph py js rs go root files g errs).2.length := by
  induction files generalizing g errs with
  | nil =>
    refine ⟨?_, le_refl _⟩
    show g.files.length + errs.length = g.files.length + errs.length + ([] : List FsPath).length
    simp
  | cons p ps ih =>
    cases hlang : Language.from_extension ((p.extension).getD "") with
    | none => exact absurd hlang (hsupp p (List.mem_cons_self p ps))
    | some lang =>
      have hnd' : ps.Nodup := (List.nodup_cons.mp hnd).2
      have hpnotin : p ∉ ps := (List.nodup_cons.mp hnd).1
      have hsupp' : ∀ q ∈ ps,
          Language.from_extension ((q.extension).getD "") ≠ none :=
        fun q hq => hsupp q (List.mem_cons_of_mem p hq)
      cases hpr : (match lang with
                   | Language.Python => py p
                   | Language.JavaScript | Language.TypeScript => js p
                   | Language.Rust => rs p
                   | Language.Go => go p) with
      | ok parsed =>
        have hstep : parse_and_build_graph py js rs go root (p :: ps) g errs =
            parse_and_build_graph py js rs go root ps
              (g.add_file
                { parsed with
                  module_name := analyzerModuleName p root (some lang) }).2 errs := by
          rw [parse_and_build_graph_cons, hlang]
          dsimp only
          rw [hpr]
        rw [hstep]
        have hdisj' : ∀ q ∈ ps, q ∉ errs.map Prod.fst :=
          fun q hq => hdisj q (List.mem_cons_of_mem p hq)
        set parsed' :=
          { parsed with module_name := analyzerModuleName p root (some lang) }
          with hparsed'
        obtain ⟨_, sfl, sc, sf, snfi⟩ := add_file_spec g parsed' hfl hc hf
        obtain ⟨ihsum, ihle⟩ :=
          ih (g.add_file parsed').2 errs sfl sc sf hnd' hsupp' hdisj'
        have hlen : (g.add_file parsed').2.files.length = g.files.length + 1 := by
          have h1 : (g.add_file parsed').2.files.length =
              ((g.add_file parsed').2.files.map Prod.fst).length := by
            rw [List.length_map]
          have h2 : g.files.length = (g.files.map Prod.fst).length := by
            rw [List.length_map]
          rw [h1, h2, sfl, hfl, snfi]
          simp [List.length_range]
        refine ⟨?_, ihle⟩
        rw [ihsum, hlen]
        simp only [List.length_cons]
        omega
      | error e =>
        have hstep : parse_and_build_graph py js rs go root (p :: ps) g errs =
            parse_and_build_graph py js rs go root ps g (insertR errs p e) := by
          rw [parse_and_build_graph_cons, hlang]
          dsimp only
          rw [hpr]
        rw [hstep]
        have hpe : p ∉ errs.map Prod.fst := hdisj p (List.mem_cons_self p ps)
        have herr : insertR errs p e = errs ++ [(p, e)] :=
          insertR_fresh errs p e hpe
        have hdisj' : ∀ q ∈ ps, q ∉ (insertR errs p e).map Prod.fst := by
          intro q hq
          rw [herr]
          simp only [List.map_append, List.map_cons, List.map_nil,
            List.mem_append, List.mem_singleton]
          rintro (hin | hqp)
          · exact hdisj q (List.mem_cons_of_mem p hq) hin
          · exact hpnotin (hqp ▸ hq)
        obtain ⟨ihsum, ihle⟩ := ih g (insertR errs p e) hfl hc hf hnd' hsupp' hdisj'
        have hlen : (insertR errs p e).length = errs.length + 1 := by
          rw [herr]
          simp
        refine ⟨?_, ?_⟩
        · rw [ihsum, hlen]
          simp only [List.length_cons]
          omega
        · omega

/-- C5: over any supported, duplicate-free discovered file list, every
file lands in exactly one of the graph or the parse-error map:
`stats().files` equals the discovered count minus the error count, and
the loop never aborts (it is a total function of the whole list). -/
theorem c5_batch_accounting
    (py js rs go : FsPath → Except String ParsedFile) (root : FsPath)
    (files : List FsPath)
    (hnd : files.Nodup)
    (hsupp : ∀ p ∈ files, Language.from_extension ((p.extension).getD "") ≠ none) :
    ((parse_and_build_graph py js rs go root files CodeGraph.new []).1.stats).files =
      files.length -
        (parse_and_build_graph py js rs go root files CodeGraph.new []).2.length ∧
    (parse_and_build_graph py js rs go root files CodeGraph.new []).2.length ≤
      files.length := by
  obtain ⟨hsum, _⟩ :=
    parse_and_build_graph_spec py js rs go root files CodeGraph.new []
      rfl rfl rfl hnd hsupp (by intro p _; simp)
  have hstats :
      ((parse_and_build_graph py js rs go root files CodeGraph.new []).1.stats).files =
        (parse_and_build_graph py js rs go root files CodeGraph.new []).1.files.length :=
    rfl
  rw [show (CodeGraph.new).files.length = 0 from rfl,
    List.length_nil] at hsum
  constructor
  · rw [hstats]
    omega
  · omega

/-- Adapter that always succeeds, for the C5 witness. -/
def c5OkParse : FsPath → Except String ParsedFile :=
  fun p => .ok (ParsedFile.new p "m")

/-- Adapter that fails on `b.py`, for the C5 witness. -/
def c5FailParse : FsPath → Except String ParsedFile :=
  fun p =>
    if p.components.getLast? = some "b.py" then .error "boom"
    else .ok (ParsedFile.new p "m")

/-- C5 witness: two discovered Python files, one failing to parse —
the graph holds one file and the error map one entry. -/
theorem c5_batch_accounting_witness :
    ([⟨true, ["proj", "a.py"]⟩, ⟨true, ["proj", "b.py"]⟩] : List FsPath).Nodup ∧
    ((parse_and_build_graph c5FailParse c5OkParse c5OkParse c5OkParse
        ⟨true, ["proj"]⟩ [⟨true, ["proj", "a.py"]⟩, ⟨true, ["proj", "b.py"]⟩]
        CodeGraph.new []).1.stats).files =
      ([⟨true, ["proj", "a.py"]⟩, ⟨true, ["proj", "b.py"]⟩] : List FsPath).length -
        (parse_and_build_graph c5FailParse c5OkParse c5OkParse c5OkParse
          ⟨true, ["proj"]⟩ [⟨true, ["proj", "a.py"]⟩, ⟨true, ["proj", "b.py"]⟩]
          CodeGraph.new []).2.length :=
  ⟨by decide,
   (c5_batch_accounting c5FailParse c5OkParse c5OkParse c5OkParse
      ⟨true, ["proj"]⟩ [⟨true, ["proj", "a.py"]⟩, ⟨true, ["proj", "b.py"]⟩]
      (by decide) (by decide)).1⟩

/-! ## Claim C4: module partition -/

/-- Inserting into a sorted list is a permutation of consing. -/
theorem insertSorted_perm {α : Type} (le : α → α → Bool) (a : α) (l : List α) :
    insertSorted le a l ~ a :: l := by
  induction l with
  | nil => exact List.Perm.refl _
  | cons b bs ih =>
    unfold insertSorted
    cases hle : le a b
    · simp only [Bool.false_eq_true, if_false]
      calc b :: insertSorted le a bs ~ b :: a :: bs := List.Perm.cons b ih
        _ ~ a :: b :: bs := List.Perm.swap a b bs
    · simp only [if_true]
      exact List.Perm.refl _

/-- `sortBy` permutes its input. -/
theorem sortBy_perm {α : Type} (le : α → α → Bool) (l : List α) :
    sortBy le l ~ l := by
  induction l with
  | nil => exact List.Perm.refl _
  | cons a as ih =>
    calc sortBy le (a :: as) = insertSorted le a (sortBy le as) := rfl
      _ ~ a :: sortBy le as := insertSorted_perm le a (sortBy le as)
      _ ~ a :: as := List.Perm.cons a ih

/-- Pushing into a group bucket adds exactly one occurrence of the
pushed id to the flattened contents. -/
theorem pushGroup_flat (m : List (FsPath × List Nat)) (k : FsPath) (v : Nat) :
    ((pushGroup m k v).flatMap fun e => e.2) ~
      v :: (m.flatMap fun e => e.2) := by
  induction m with
  | nil => exact List.Perm.refl _
  | cons e rest ih =>
    obtain ⟨k', l⟩ := e
    by_cases hk : k' = k
    · simp only [pushGroup, if_pos hk, List.flatMap_cons]
      calc (l ++ [v]) ++ (rest.flatMap fun e => e.2)
          ~ (v :: l) ++ (rest.flatMap fun e => e.2) :=
            (List.perm_append_singleton v l).append_right _
        _ = v :: (l ++ rest.flatMap fun e => e.2) := rfl
    · simp only [pushGroup, if_neg hk, List.flatMap_cons]
      calc l ++ ((pushGroup rest k v).flatMap fun e => e.2)
          ~ l ++ (v :: rest.flatMap fun e => e.2) := ih.append_left l
        _ ~ v :: (l ++ rest.flatMap fun e => e.2) := List.perm_middle

/-- Pushing preserves non-emptiness of every bucket. -/
theorem pushGroup_ne (m : List (FsPath × List Nat)) (k : FsPath) (v : Nat)
    (h : ∀ e ∈ m, e.2 ≠ []) : ∀ e ∈ pushGroup m k v, e.2 ≠ [] := by
  induction m with
  | nil =>
    intro e he
    simp only [pushGroup, List.mem_singleton] at he
    subst he
    simp
  | cons b rest ih =>
    obtain ⟨k', l⟩ := b
    intro e he
    by_cases hk : k' = k
    · simp only [pushGroup, if_pos hk, List.mem_cons] at he
      rcases he with he | he
      · subst he
        simp
      · exact h e (List.mem_cons_of_mem _ he)
    · simp only [pushGroup, if_neg hk, List.mem_cons] at he
      rcases he with he | he
      · subst he
        exact h (k', l) (List.mem_cons_self _ _)
      · exact ih (fun e' he' => h e' (List.mem_cons_of_mem _ he')) e he

/-- The file ids that the grouping loop keeps: those whose effective
path has a parent directory. -/
def keptIds (root : FsPath) (files : List (Nat × FileNode)) : List Nat :=
  files.filterMap fun kv =>
    match (if kv.2.path.absolute then kv.2.path else root.join kv.2.path).parent with
    | none => none
    | some _ => some kv.1

/-- One step of the grouping loop, written out for rewriting. -/
theorem detectLoop_cons (root : FsPath) (fid : Nat) (node : FileNode)
    (rest : List (Nat × FileNode)) (df : List (FsPath × List Nat))
    (di : List (FsPath × Bool)) :
    detectLoop root ((fid, node) :: rest) df di =
      (match (if node.path.absolute then node.path else root.join node.path).parent with
       | none => detectLoop root rest df di
       | some parentDir =>
         detectLoop root rest
           (pushGroup df ((parentDir.stripBase root).getD parentDir) fid)
           (if node.path.fileName = some "__init__.py" then
             insertR di ((parentDir.stripBase root).getD parentDir) true
           else di)) := rfl

/-- The flattened grouped ids are a permutation of the kept ids plus
whatever was already in the buckets. -/
theorem detectLoop_flat (root : FsPath) (files : List (Nat × FileNode))
    (df : List (FsPath × List Nat)) (di : List (FsPath × Bool)) :
    ((detectLoop root files df di).1.flatMap fun e => e.2) ~
      keptIds root files ++ (df.flatMap fun e => e.2) := by
  induction files generalizing df di with
  | nil => simp [detectLoop, keptIds]
  | cons kv rest ih =>
    obtain ⟨fid, node⟩ := kv
    rw [detectLoop_cons]
    cases hp : (if node.path.absolute then node.path else root.join node.path).parent with
    | none =>
      have hkept : keptIds root ((fid, node) :: rest) = keptIds root rest := by
        simp only [keptIds, List.filterMap_cons, hp]
      rw [hkept]
      exact ih df di
    | some parentDir =>
      have hkept : keptIds root ((fid, node) :: rest) =
          fid :: keptIds root rest := by
        simp only [keptIds, List.filterMap_cons, hp]
      rw [hkept]
      calc ((detectLoop root rest
              (pushGroup df ((parentDir.stripBase root).getD parentDir) fid)
              (if node.path.fileName = some "__init__.py" then
                insertR di ((parentDir.stripBase root).getD parentDir) true
              else di)).1.flatMap fun e => e.2)
          ~ keptIds root rest ++
              ((pushGroup df ((parentDir.stripBase root).getD parentDir)
                fid).flatMap fun e => e.2) := ih _ _
        _ ~ keptIds root rest ++ (fid :: (df.flatMap fun e => e.2)) :=
            (pushGroup_flat df _ fid).append_left _
        _ ~ fid :: (keptIds root rest ++ (df.flatMap fun e => e.2)) :=
            List.perm_middle

/-- The grouping loop preserves non-emptiness of every bucket. -/
theorem detectLoop_ne (root : FsPath) (files : List (Nat × FileNode))
    (df : List (FsPath × List Nat)) (di : List (FsPath × Bool))
    (h : ∀ e ∈ df, e.2 ≠ []) :
    ∀ e ∈ (detectLoop root files df di).1, e.2 ≠ [] := by
  induction files generalizing df di with
  | nil => exact h
  | cons kv rest ih =>
    obtain ⟨fid, node⟩ := kv
    rw [detectLoop_cons]
    cases hp : (if node.path.absolute then node.path else root.join node.path).parent with
    | none => exact ih df di h
    | some parentDir => exact ih _ _ (pushGroup_ne df _ fid h)

/-- When every file's effective path has a parent, no file is dropped
by the grouping loop. -/
theorem keptIds_all (root : FsPath) (files : List (Nat × FileNode))
    (h : ∀ kv ∈ files,
      ((if kv.2.path.absolute then kv.2.path else root.join kv.2.path).parent).isSome) :
    keptIds root files = files.map Prod.fst := by
  induction files with
  | nil => rfl
  | cons kv rest ih =>
    cases hp : (if kv.2.path.absolute then kv.2.path else root.join kv.2.path).parent with
    | none =>
      have := h kv (List.mem_cons_self kv rest)
      rw [hp] at this
      simp at this
    | some parentDir =>
      simp only [keptIds, List.filterMap_cons, hp, List.map_cons]
      have ihr := ih fun kv' hkv' => h kv' (List.mem_cons_of_mem kv hkv')
      simp only [keptIds] at ihr
      rw [ihr]

/-- The flattened file sets of the detected modules are a permutation
of the kept file ids. -/
theorem detect_flat_perm (g : CodeGraph) (root : FsPath) :
    ((ModuleDetector.new.detect g root).flatMap Module.files) ~
      keptIds root g.files := by
  have hne : ∀ e ∈ (detectLoop root g.files [] []).1, e.2 ≠ [] :=
    detectLoop_ne root g.files [] [] (by intro e he; simp at he)
  have hfilter :
      ((detectLoop root g.files [] []).1.filter fun kv =>
        (ModuleDetector.new).min_files ≤ kv.2.length) =
      (detectLoop root g.files [] []).1 := by
    rw [List.filter_eq_self]
    intro a ha
    have := hne a ha
    simp only [decide_eq_true_eq]
    show 1 ≤ a.2.length
    exact List.length_pos.mpr this
  have hdetect : ModuleDetector.new.detect g root =
      sortBy moduleLe (((detectLoop root g.files [] []).1.filter fun kv =>
        (ModuleDetector.new).min_files ≤ kv.2.length).map fun kv =>
        { name := detectorModuleName kv.1
          path := kv.1
          files := kv.2
          is_package := (findVal (detectLoop root g.files [] []).2 kv.1).getD false
          module_type :=
            match kv.1.fileName with
            | some n => ModuleType.from_name n
            | none => .Generic
          outgoing_imports := 0
          incoming_imports := 0 : Module }) := rfl
  rw [hdetect, hfilter]
  have hflat : ∀ (l : List (FsPath × List Nat)),
      ((l.map fun kv =>
        { name := detectorModuleName kv.1
          path := kv.1
          files := kv.2
          is_package := (findVal (detectLoop root g.files [] []).2 kv.1).getD false
          module_type :=
            match kv.1.fileName with
            | some n => ModuleType.from_name n
            | none => .Generic
          outgoing_imports := 0
          incoming_imports := 0 : Module }).flatMap Module.files) =
      l.flatMap fun e => e.2 := by
    intro l
    induction l with
    | nil => rfl
    | cons e rest ihl => simp only [List.map_cons, List.flatMap_cons, ihl]
  calc ((sortBy moduleLe _).flatMap Module.files)
      ~ (((detectLoop root g.files [] []).1.map fun kv =>
          { name := detectorModuleName kv.1
            path := kv.1
            files := kv.2
            is_package := (findVal (detectLoop root g.files [] []).2 kv.1).getD false
            module_type :=
              match kv.1.fileName with
              | some n => ModuleType.from_name n
              | none => .Generic
            outgoing_imports := 0
            incoming_imports := 0 : Module }).flatMap Module.files) := by
        rw [List.flatMap_def, List.flatMap_def]
        exact ((sortBy_perm moduleLe _).map Module.files).flatten
    _ = ((detectLoop root g.files [] []).1.flatMap fun e => e.2) := hflat _
    _ ~ keptIds root g.files ++ ([].flatMap fun e : FsPath × List Nat => e.2) :=
        detectLoop_flat root g.files [] []
    _ = keptIds root g.files := by simp

/-- A file node whose path is the filesystem root, for the C4
counterexample. -/
def c4RootNode : FileNode :=
  { path := ⟨true, []⟩, module_name := "weird", docstring := none,
    total_lines := 0, code_lines := 0, comment_lines := 0, classes := [],
    functions := [], imports := [], constants := [] }

/-- Single-file graph holding the root-path file. -/
def c4RootGraph : CodeGraph :=
  { files := [(0, c4RootNode)], classes := [], functions := [], edges := [],
    path_to_file := [], module_to_file := [], next_file_id := 1,
    next_class_id := 0, next_function_id := 0 }

/-- C4 counterexample: a graph whose only file has the filesystem
root as its path; its effective path has no parent directory, so
`detect` silently drops it and returns no module at all — the union
of the module file sets misses a file id present in the graph. -/
theorem c4_counterexample :
    (0 : Nat) ∈ (c4RootGraph.files.map Prod.fst) ∧
    ModuleDetector.new.detect c4RootGraph ⟨true, []⟩ = [] := by
  constructor
  · decide
  · decide

/-- C4 amended: provided every file's effective path (the stored path,
joined under the project root when relative) has a parent directory —
true of every real source file — the modules detected with the default
minimum file count form a partition of the graph's file ids: their
file sets flatten to a permutation of the graph's key list, and no
file id lies in two distinct modules. -/
theorem c4_module_partition (g : CodeGraph) (root : FsPath)
    (hnd : (g.files.map Prod.fst).Nodup)
    (hpar : ∀ kv ∈ g.files,
      ((if kv.2.path.absolute then kv.2.path else root.join kv.2.path).parent).isSome) :
    ((ModuleDetector.new.detect g root).flatMap Module.files) ~
      g.files.map Prod.fst ∧
    (∀ m1 ∈ ModuleDetector.new.detect g root,
      ∀ m2 ∈ ModuleDetector.new.detect g root,
      ∀ fid, fid ∈ m1.files → fid ∈ m2.files → m1 = m2) := by
  have hperm : ((ModuleDetector.new.detect g root).flatMap Module.files) ~
      g.files.map Prod.fst := by
    calc ((ModuleDetector.new.detect g root).flatMap Module.files)
        ~ keptIds root g.files := detect_flat_perm g root
      _ = g.files.map Prod.fst := keptIds_all root g.files hpar
  refine ⟨hperm, ?_⟩
  have hflatnd : ((ModuleDetector.new.detect g root).flatMap Module.files).Nodup :=
    (hperm.nodup_iff).mpr hnd
  rw [List.flatMap_def] at hflatnd
  have hpw := (List.nodup_flatten.mp hflatnd).2
  rw [List.pairwise_map] at hpw
  have hsym : Symmetric fun a b : Module => a.files.Disjoint b.files :=
    fun _ _ h => h.symm
  intro m1 hm1 m2 hm2 fid hf1 hf2
  by_contra hne
  exact (hpw.forall hsym hm1 hm2 hne) hf1 hf2

/-- Fixture for the C4 witness: two files in the same directory. -/
def c4NodeA : FileNode :=
  { path := ⟨true, ["proj", "src", "a.py"]⟩, module_name := "src.a",
    docstring := none, total_lines := 0, code_lines := 0, comment_lines := 0,
    classes := [], functions := [], imports := [], constants := [] }

/-- Second fixture file for the C4 witness. -/
def c4NodeB : FileNode :=
  { path := ⟨true, ["proj", "src", "b.py"]⟩, module_name := "src.b",
    docstring := none, total_lines := 0, code_lines := 0, comment_lines := 0,
    classes := [], functions := [], imports := [], constants := [] }

/-- Two-file graph for the C4 witness. -/
def c4Graph : CodeGraph :=
  { files := [(0, c4NodeA), (1, c4NodeB)], classes := [], functions := [],
    edges := [], path_to_file := [], module_to_file := [],
    next_file_id := 2, next_class_id := 0, next_function_id := 0 }

/-- C4 witness: the amended partition theorem applied to the concrete
two-file graph. -/
theorem c4_module_partition_witness :
    ((ModuleDetector.new.detect c4Graph ⟨true, ["proj"]⟩).flatMap Module.files) ~
      c4Graph.files.map Prod.fst ∧
    (∀ m1 ∈ ModuleDetector.new.detect c4Graph ⟨true, ["proj"]⟩,
      ∀ m2 ∈ ModuleDetector.new.detect c4Graph ⟨true, ["proj"]⟩,
      ∀ fid, fid ∈ m1.files → fid ∈ m2.files → m1 = m2) :=
  c4_module_partition c4Graph ⟨true, ["proj"]⟩ (by decide) (by decide)

/-! ## Claim C9: coupling arithmetic -/

/-- C9: `coupling_score` is `(outgoing + incoming) / file count`, `0`
for a module with no files; in particular outgoing 4, incoming 2 and
2 files give exactly 3. -/
theorem c9_coupling_arithmetic :
    (∀ m : Module, m.files = [] → m.coupling_score = 0) ∧
    (∀ m : Module, m.files ≠ [] →
      m.coupling_score =
        ((m.outgoing_imports : ℚ) + (m.incoming_imports : ℚ)) /
          (m.files.length : ℚ)) ∧
    (∀ m : Module, m.outgoing_imports = 4 → m.incoming_imports = 2 →
      m.files.length = 2 → m.coupling_score = 3) := by
  refine ⟨?_, ?_, ?_⟩
  · intro m hm
    simp [Module.coupling_score, hm]
  · intro m hm
    simp [Module.coupling_score, List.isEmpty_iff, hm]
  · intro m ho hi hl
    have hne : ¬ m.files.isEmpty := by
      cases hf : m.files with
      | nil => rw [hf] at hl; simp at hl
      | cons a l => simp [hf]
    simp [Module.coupling_score, hne, ho, hi, hl]
    norm_num

/-- C9 witness: concrete modules exercising all three conjuncts. -/
theorem c9_coupling_arithmetic_witness :
    ({ name := "empty", path := ⟨false, ["e"]⟩, files := [],
       is_package := false, module_type := .Generic,
       outgoing_imports := 5, incoming_imports := 7 : Module }).coupling_score = 0 ∧
    ({ name := "test", path := ⟨false, ["test"]⟩, files := [0, 1],
       is_package := false, module_type := .Generic,
       outgoing_imports := 4, incoming_imports := 2 : Module }).coupling_score =
      ((4 : ℚ) + (2 : ℚ)) / ((2 : Nat) : ℚ) ∧
    ({ name := "test", path := ⟨false, ["test"]⟩, files := [0, 1],
       is_package := false, module_type := .Generic,
       outgoing_imports := 4, incoming_imports := 2 : Module }).coupling_score = 3 :=
  ⟨c9_coupling_arithmetic.1 _ rfl,
   by
    have h := c9_coupling_arithmetic.2.1
      { name := "test", path := ⟨false, ["test"]⟩, files := [0, 1],
        is_package := false, module_type := .Generic,
        outgoing_imports := 4, incoming_imports := 2 : Module } (by simp)
    simpa using h,
   c9_coupling_arithmetic.2.2 _ rfl rfl rfl⟩

/-! ## Claim C8: serialization round-trip fidelity

Modelled from the spec: the serialization code itself (the serde
`Serialize`/`Deserialize` derive expansions that the Rust types carry)
is not part of the repository's sources — only the derive annotations
are — so the "structured, language-neutral document format" of the
serialization contract is modelled here by an explicit JSON-like
document type with one encoder and one decoder per public entity,
following the structure of the derived implementations: structs become
objects keyed by field name, unit enum variants become strings, data
variants become single-field objects, options and maps become arrays. -/

/-- A structured, language-neutral document (JSON-like). -/
inductive Json where
  | jbool (b : Bool)
  | jnum (n : Nat)
  | jstr (s : String)
  | jarr (items : List Json)
  | jobj (fields : List (String × Json))

/-- Decode a string document. -/
def decStr : Json → Option String
  | .jstr s => some s
  | _ => none

/-- Decode a number document. -/
def decNat : Json → Option Nat
  | .jnum n => some n
  | _ => none

/-- Decode a boolean document. -/
def decBool : Json → Option Bool
  | .jbool b => some b
  | _ => none

/-- Encode an optional value (empty array = `None`). -/
def encOpt {α : Type} (g : α → Json) : Option α → Json
  | none => .jarr []
  | some a => .jarr [g a]

/-- Decode an optional value. -/
def decOpt {α : Type} (f : Json → Option α) : Json → Option (Option α)
  | .jarr [] => some none
  | .jarr [j] => (f j).map some
  | _ => none

/-- Decode every element of a list of documents. -/
def decAll {α : Type} (f : Json → Option α) : List Json → Option (List α)
  | [] => some []
  | j :: js =>
    match f j, decAll f js with
    | some a, some as => some (a :: as)
    | _, _ => none

/-- Decode an encoded list. -/
def decList {α : Type} (f : Json → Option α) : Json → Option (List α)
  | .jarr items => decAll f items
  | _ => none

/-- Encode a pair as a two-element array. -/
def encPair {α β : Type} (f : α → Json) (g : β → Json) (kv : α × β) : Json :=
  .jarr [f kv.1, g kv.2]

/-- Decode a two-element array into a pair. -/
def decPair {α β : Type} (f : Json → Option α) (g : Json → Option β) :
    Json → Option (α × β)
  | .jarr [j1, j2] =>
    match f j1, g j2 with
    | some a, some b => some (a, b)
    | _, _ => none
  | _ => none

/-- Optional-value round trip. -/
theorem decOpt_encOpt {α : Type} (f : Json → Option α) (g : α → Json)
    (h : ∀ a, f (g a) = some a) : ∀ o : Option α, decOpt f (encOpt g o) = some o
  | none => rfl
  | some a => by simp [encOpt, decOpt, h a]

/-- Element-wise round trip for lists. -/
theorem decAll_map {α : Type} (f : Json → Option α) (g : α → Json)
    (h : ∀ a, f (g a) = some a) (l : List α) : decAll f (l.map g) = some l := by
  induction l with
  | nil => rfl
  | cons a as ih => simp [decAll, h a, ih]

/-- Encoded-list round trip. -/
theorem decList_enc {α : Type} (f : Json → Option α) (g : α → Json)
    (h : ∀ a, f (g a) = some a) (l : List α) :
    decList f (.jarr (l.map g)) = some l := by
  simp [decList, decAll_map f g h l]

/-- Pair round trip. -/
theorem decPair_encPair {α β : Type} (f : Json → Option α) (g : Json → Option β)
    (ef : α → Json) (eg : β → Json)
    (hf : ∀ a, f (ef a) = some a) (hg : ∀ b, g (eg b) = some b)
    (kv : α × β) : decPair f g (encPair ef eg kv) = some kv := by
  obtain ⟨a, b⟩ := kv
  simp [encPair, decPair, hf a, hg b]

/-- Encode a `ParameterKind`. -/
def encParameterKind : ParameterKind → Json
  | .Regular => .jstr "Regular"
  | .Args => .jstr "Args"
  | .Kwargs => .jstr "Kwargs"
  | .PositionalOnly => .jstr "PositionalOnly"
  | .KeywordOnly => .jstr "KeywordOnly"

/-- Decode a `ParameterKind`. -/
def decParameterKind : Json → Option ParameterKind
  | .jstr "Regular" => some .Regular
  | .jstr "Args" => some .Args
  | .jstr "Kwargs" => some .Kwargs
  | .jstr "PositionalOnly" => some .PositionalOnly
  | .jstr "KeywordOnly" => some .KeywordOnly
  | _ => none

/-- `ParameterKind` round trip. -/
theorem decParameterKind_enc (k : ParameterKind) :
    decParameterKind (encParameterKind k) = some k := by
  cases k <;> rfl

/-- Encode a `Parameter`. -/
def encParameter (p : Parameter) : Json :=
  .jobj [("name", .jstr p.name), ("type_hint", encOpt Json.jstr p.type_hint),
    ("default", encOpt Json.jstr p.default), ("kind", encParameterKind p.kind)]

/-- Decode a `Parameter`. -/
def decParameter : Json → Option Parameter
  | .jobj [("name", .jstr name), ("type_hint", th), ("default", d), ("kind", k)] =>
    match decOpt decStr th, decOpt decStr d, decParameterKind k with
    | some tho, some dfo, some ko => some ⟨name, tho, dfo, ko⟩
    | _, _, _ => none
  | _ => none

/-- `Parameter` round trip. -/
theorem decParameter_enc (p : Parameter) :
    decParameter (encParameter p) = some p := by
  obtain ⟨name, th, d, k⟩ := p
  simp [encParameter, decParameter,
    decOpt_encOpt decStr Json.jstr (fun _ => rfl),
    decParameterKind_enc k]

/-- Encode a `Constant`. -/
def encConstant (c : Constant) : Json :=
  .jobj [("name", .jstr c.name), ("type_hint", encOpt Json.jstr c.type_hint),
    ("value", encOpt Json.jstr c.value), ("line", .jnum c.line)]

/-- Decode a `Constant`. -/
def decConstant : Json → Option Constant
  | .jobj [("name", .jstr name), ("type_hint", th), ("value", v),
      ("line", .jnum line)] =>
    match decOpt decStr th, decOpt decStr v with
    | some tho, some vo => some ⟨name, tho, vo, line⟩
    | _, _ => none
  | _ => none

/-- `Constant` round trip. -/
theorem decConstant_enc (c : Constant) : decConstant (encConstant c) = some c := by
  obtain ⟨name, th, v, line⟩ := c
  simp [encConstant, decConstant, decOpt_encOpt decStr Json.jstr (fun _ => rfl)]

/-- Encode an `Attribute`. -/
def encAttribute (a : Attribute) : Json :=
  .jobj [("name", .jstr a.name), ("type_hint", encOpt Json.jstr a.type_hint),
    ("default", encOpt Json.jstr a.default), ("line", .jnum a.line)]

/-- Decode an `Attribute`. -/
def decAttribute : Json → Option Attribute
  | .jobj [("name", .jstr name), ("type_hint", th), ("default", d),
      ("line", .jnum line)] =>
    match decOpt decStr th, decOpt decStr d with
    | some tho, some dfo => some ⟨name, tho, dfo, line⟩
    | _, _ => none
  | _ => none

/-- `Attribute` round trip. -/
theorem decAttribute_enc (a : Attribute) :
    decAttribute (encAttribute a) = some a := by
  obtain ⟨name, th, d, line⟩ := a
  simp [encAttribute, decAttribute, decOpt_encOpt decStr Json.jstr (fun _ => rfl)]

/-- Encode an `ImportedName`. -/
def encImportedName (n : ImportedName) : Json :=
  .jobj [("name", .jstr n.name), ("alias", encOpt Json.jstr n.alias_)]

/-- Decode an `ImportedName`. -/
def decImportedName : Json → Option ImportedName
  | .jobj [("name", .jstr name), ("alias", al)] =>
    match decOpt decStr al with
    | some alo => some ⟨name, alo⟩
    | none => none
  | _ => none

/-- `ImportedName` round trip. -/
theorem decImportedName_enc (n : ImportedName) :
    decImportedName (encImportedName n) = some n := by
  obtain ⟨name, al⟩ := n
  simp [encImportedName, decImportedName,
    decOpt_encOpt decStr Json.jstr (fun _ => rfl)]

/-- Encode an `ImportKind`. -/
def encImportKind : ImportKind → Json
  | .Direct => .jstr "Direct"
  | .From => .jstr "From"
  | .Relative level => .jobj [("Relative", .jnum level)]

/-- Decode an `ImportKind`. -/
def decImportKind : Json → Option ImportKind
  | .jstr "Direct" => some .Direct
  | .jstr "From" => some .From
  | .jobj [("Relative", .jnum level)] => some (.Relative level)
  | _ => none

/-- `ImportKind` round trip. -/
theorem decImportKind_enc (k : ImportKind) :
    decImportKind (encImportKind k) = some k := by
  cases k <;> rfl

/-- Encode an `Import`. -/
def encImport (i : Import) : Json :=
  .jobj [("module", .jstr i.module),
    ("names", .jarr (i.names.map encImportedName)),
    ("kind", encImportKind i.kind), ("line", .jnum i.line)]

/-- Decode an `Import`. -/
def decImport : Json → Option Import
  | .jobj [("module", .jstr module), ("names", ns), ("kind", k),
      ("line", .jnum line)] =>
    match decList decImportedName ns, decImportKind k with
    | some nso, some ko => some ⟨module, nso, ko, line⟩
    | _, _ => none
  | _ => none

/-- `Import` round trip. -/
theorem decImport_enc (i : Import) : decImport (encImport i) = some i := by
  obtain ⟨module, ns, k, line⟩ := i
  simp [encImport, decImport,
    decList_enc decImportedName encImportedName decImportedName_enc,
    decImportKind_enc k]


/-- The field list of an object document. -/
def jobjFields : Json → Option (List (String × Json))
  | .jobj fields => some fields
  | _ => none

/-- Look up a field of an object document by name. -/
def getField (j : Json) (k : String) : Option Json :=
  (jobjFields j).bind fun fields => findVal fields k

/-- Encode a `Function`. -/
def encFunction (f : Function) : Json :=
  .jobj [("name", .jstr f.name), ("docstring", encOpt Json.jstr f.docstring),
    ("parameters", .jarr (f.parameters.map encParameter)),
    ("return_type", encOpt Json.jstr f.return_type),
    ("decorators", .jarr (f.decorators.map Json.jstr)),
    ("is_async", .jbool f.is_async), ("is_generator", .jbool f.is_generator),
    ("is_component", .jbool f.is_component),
    ("line_start", .jnum f.line_start), ("line_end", .jnum f.line_end)]

/-- Decode a `Function` by field lookup. -/
def decFunction (j : Json) : Option Function := do
  let name ← (getField j "name").bind decStr
  let doc ← (getField j "docstring").bind (decOpt decStr)
  let ps ← (getField j "parameters").bind (decList decParameter)
  let rt ← (getField j "return_type").bind (decOpt decStr)
  let decs ← (getField j "decorators").bind (decList decStr)
  let ia ← (getField j "is_async").bind decBool
  let ig ← (getField j "is_generator").bind decBool
  let ic ← (getField j "is_component").bind decBool
  let ls ← (getField j "line_start").bind decNat
  let le ← (getField j "line_end").bind decNat
  pure ⟨name, doc, ps, rt, decs, ia, ig, ic, ls, le⟩

/-- `Function` round trip. -/
theorem decFunction_enc (f : Function) : decFunction (encFunction f) = some f := by
  obtain ⟨name, doc, ps, rt, decs, ia, ig, ic, ls, le⟩ := f
  simp [encFunction, decFunction, getField, jobjFields, findVal,
    decStr, decBool, decNat,
    decOpt_encOpt decStr Json.jstr (fun _ => rfl),
    decList_enc decParameter encParameter decParameter_enc,
    decList_enc decStr Json.jstr (fun _ => rfl)]

/-- Encode a `Class`. -/
def encClass (c : Class) : Json :=
  .jobj [("name", .jstr c.name), ("docstring", encOpt Json.jstr c.docstring),
    ("bases", .jarr (c.bases.map Json.jstr)),
    ("decorators", .jarr (c.decorators.map Json.jstr)),
    ("methods", .jarr (c.methods.map encFunction)),
    ("attributes", .jarr (c.attributes.map encAttribute)),
    ("line_start", .jnum c.line_start), ("line_end", .jnum c.line_end)]

/-- Decode a `Class` by field lookup. -/
def decClass (j : Json) : Option Class := do
  let name ← (getField j "name").bind decStr
  let doc ← (getField j "docstring").bind (decOpt decStr)
  let bs ← (getField j "bases").bind (decList decStr)
  let decs ← (getField j "decorators").bind (decList decStr)
  let ms ← (getField j "methods").bind (decList decFunction)
  let ats ← (getField j "attributes").bind (decList decAttribute)
  let ls ← (getField j "line_start").bind decNat
  let le ← (getField j "line_end").bind decNat
  pure ⟨name, doc, bs, decs, ms, ats, ls, le⟩

/-- `Class` round trip. -/
theorem decClass_enc (c : Class) : decClass (encClass c) = some c := by
  obtain ⟨name, doc, bs, decs, ms, ats, ls, le⟩ := c
  simp [encClass, decClass, getField, jobjFields, findVal, decStr, decNat,
    decOpt_encOpt decStr Json.jstr (fun _ => rfl),
    decList_enc decStr Json.jstr (fun _ => rfl),
    decList_enc decFunction encFunction decFunction_enc,
    decList_enc decAttribute encAttribute decAttribute_enc]

/-- Encode an `FsPath`. -/
def encFsPath (p : FsPath) : Json :=
  .jobj [("absolute", .jbool p.absolute),
    ("components", .jarr (p.components.map Json.jstr))]

/-- Decode an `FsPath`. -/
def decFsPath (j : Json) : Option FsPath := do
  let a ← (getField j "absolute").bind decBool
  let cs ← (getField j "components").bind (decList decStr)
  pure ⟨a, cs⟩

/-- `FsPath` round trip. -/
theorem decFsPath_enc (p : FsPath) : decFsPath (encFsPath p) = some p := by
  obtain ⟨a, cs⟩ := p
  simp [encFsPath, decFsPath, getField, jobjFields, findVal, decBool,
    decList_enc decStr Json.jstr (fun _ => rfl)]

/-- Encode a `ParsedFile`. -/
def encParsedFile (p : ParsedFile) : Json :=
  .jobj [("path", encFsPath p.path), ("module_name", .jstr p.module_name),
    ("docstring", encOpt Json.jstr p.docstring),
    ("imports", .jarr (p.imports.map encImport)),
    ("classes", .jarr (p.classes.map encClass)),
    ("functions", .jarr (p.functions.map encFunction)),
    ("constants", .jarr (p.constants.map encConstant)),
    ("total_lines", .jnum p.total_lines), ("code_lines", .jnum p.code_lines),
    ("comment_lines", .jnum p.comment_lines)]

/-- Decode a `ParsedFile` by field lookup. -/
def decParsedFile (j : Json) : Option ParsedFile := do
  let pa ← (getField j "path").bind decFsPath
  let mn ← (getField j "module_name").bind decStr
  let doc ← (getField j "docstring").bind (decOpt decStr)
  let is' ← (getField j "imports").bind (decList decImport)
  let cs ← (getField j "classes").bind (decList decClass)
  let fns ← (getField j "functions").bind (decList decFunction)
  let ks ← (getField j "constants").bind (decList decConstant)
  let tl ← (getField j "total_lines").bind decNat
  let cl ← (getField j "code_lines").bind decNat
  let cml ← (getField j "comment_lines").bind decNat
  pure ⟨pa, mn, doc, is', cs, fns, ks, tl, cl, cml⟩

/-- `ParsedFile` round trip. -/
theorem decParsedFile_enc (p : ParsedFile) :
    decParsedFile (encParsedFile p) = some p := by
  obtain ⟨pa, mn, doc, is', cs, fns, ks, tl, cl, cml⟩ := p
  simp [encParsedFile, decParsedFile, getField, jobjFields, findVal,
    decStr, decNat, decFsPath_enc,
    decOpt_encOpt decStr Json.jstr (fun _ => rfl),
    decList_enc decImport encImport decImport_enc,
    decList_enc decClass encClass decClass_enc,
    decList_enc decFunction encFunction decFunction_enc,
    decList_enc decConstant encConstant decConstant_enc]


/-- Encode a `NodeId`. -/
def encNodeId : NodeId → Json
  | .file id => .jobj [("File", .jnum id)]
  | .cls id => .jobj [("Class", .jnum id)]
  | .func id => .jobj [("Function", .jnum id)]

/-- Decode a `NodeId`. -/
def decNodeId : Json → Option NodeId
  | .jobj [("File", .jnum id)] => some (.file id)
  | .jobj [("Class", .jnum id)] => some (.cls id)
  | .jobj [("Function", .jnum id)] => some (.func id)
  | _ => none

/-- `NodeId` round trip. -/
theorem decNodeId_enc (n : NodeId) : decNodeId (encNodeId n) = some n := by
  cases n <;> rfl

/-- Encode an `EdgeKind`. -/
def encEdgeKind : EdgeKind → Json
  | .Imports => .jstr "Imports"
  | .Inherits => .jstr "Inherits"
  | .Calls => .jstr "Calls"
  | .DefinedIn => .jstr "DefinedIn"

/-- Decode an `EdgeKind`. -/
def decEdgeKind : Json → Option EdgeKind
  | .jstr "Imports" => some .Imports
  | .jstr "Inherits" => some .Inherits
  | .jstr "Calls" => some .Calls
  | .jstr "DefinedIn" => some .DefinedIn
  | _ => none

/-- `EdgeKind` round trip. -/
theorem decEdgeKind_enc (k : EdgeKind) : decEdgeKind (encEdgeKind k) = some k := by
  cases k <;> rfl

/-- Encode an `Edge`. -/
def encEdge (e : Edge) : Json :=
  .jobj [("from", encNodeId e.from_), ("to", encNodeId e.to_),
    ("kind", encEdgeKind e.kind)]

/-- Decode an `Edge` by field lookup. -/
def decEdge (j : Json) : Option Edge := do
  let f ← (getField j "from").bind decNodeId
  let t ← (getField j "to").bind decNodeId
  let k ← (getField j "kind").bind decEdgeKind
  pure ⟨f, t, k⟩

/-- `Edge` round trip. -/
theorem decEdge_enc (e : Edge) : decEdge (encEdge e) = some e := by
  obtain ⟨f, t, k⟩ := e
  simp [encEdge, decEdge, getField, jobjFields, findVal, decNodeId_enc,
    decEdgeKind_enc]

/-- Encode a `FileNode`. -/
def encFileNode (n : FileNode) : Json :=
  .jobj [("path", encFsPath n.path), ("module_name", .jstr n.module_name),
    ("docstring", encOpt Json.jstr n.docstring),
    ("total_lines", .jnum n.total_lines), ("code_lines", .jnum n.code_lines),
    ("comment_lines", .jnum n.comment_lines),
    ("classes", .jarr (n.classes.map Json.jnum)),
    ("functions", .jarr (n.functions.map Json.jnum)),
    ("imports", .jarr (n.imports.map encImport)),
    ("constants", .jarr (n.constants.map encConstant))]

/-- Decode a `FileNode` by field lookup. -/
def decFileNode (j : Json) : Option FileNode := do
  let pa ← (getField j "path").bind decFsPath
  let mn ← (getField j "module_name").bind decStr
  let doc ← (getField j "docstring").bind (decOpt decStr)
  let tl ← (getField j "total_lines").bind decNat
  let cl ← (getField j "code_lines").bind decNat
  let cml ← (getField j "comment_lines").bind decNat
  let cs ← (getField j "classes").bind (decList decNat)
  let fns ← (getField j "functions").bind (decList decNat)
  let is' ← (getField j "imports").bind (decList decImport)
  let ks ← (getField j "constants").bind (decList decConstant)
  pure ⟨pa, mn, doc, tl, cl, cml, cs, fns, is', ks⟩

/-- `FileNode` round trip. -/
theorem decFileNode_enc (n : FileNode) : decFileNode (encFileNode n) = some n := by
  obtain ⟨pa, mn, doc, tl, cl, cml, cs, fns, is', ks⟩ := n
  simp [encFileNode, decFileNode, getField, jobjFields, findVal,
    decStr, decNat, decFsPath_enc,
    decOpt_encOpt decStr Json.jstr (fun _ => rfl),
    decList_enc decNat Json.jnum (fun _ => rfl),
    decList_enc decImport encImport decImport_enc,
    decList_enc decConstant encConstant decConstant_enc]

/-- Encode a `ClassNode`. -/
def encClassNode (n : ClassNode) : Json :=
  .jobj [("name", .jstr n.name), ("file", .jnum n.file),
    ("docstring", encOpt Json.jstr n.docstring),
    ("bases", .jarr (n.bases.map Json.jstr)),
    ("decorators", .jarr (n.decorators.map Json.jstr)),
    ("methods", .jarr (n.methods.map Json.jnum)),
    ("line_start", .jnum n.line_start), ("line_end", .jnum n.line_end)]

/-- Decode a `ClassNode` by field lookup. -/
def decClassNode (j : Json) : Option ClassNode := do
  let name ← (getField j "name").bind decStr
  let file ← (getField j "file").bind decNat
  let doc ← (getField j "docstring").bind (decOpt decStr)
  let bs ← (getField j "bases").bind (decList decStr)
  let decs ← (getField j "decorators").bind (decList decStr)
  let ms ← (getField j "methods").bind (decList decNat)
  let ls ← (getField j "line_start").bind decNat
  let le ← (getField j "line_end").bind decNat
  pure ⟨name, file, doc, bs, decs, ms, ls, le⟩

/-- `ClassNode` round trip. -/
theorem decClassNode_enc (n : ClassNode) :
    decClassNode (encClassNode n) = some n := by
  obtain ⟨name, file, doc, bs, decs, ms, ls, le⟩ := n
  simp [encClassNode, decClassNode, getField, jobjFields, findVal,
    decStr, decNat,
    decOpt_encOpt decStr Json.jstr (fun _ => rfl),
    decList_enc decStr Json.jstr (fun _ => rfl),
    decList_enc decNat Json.jnum (fun _ => rfl)]

/-- Encode a `FunctionNode`. -/
def encFunctionNode (n : FunctionNode) : Json :=
  .jobj [("name", .jstr n.name), ("file", .jnum n.file),
    ("class", encOpt Json.jnum n.cls),
    ("docstring", encOpt Json.jstr n.docstring),
    ("parameters", .jarr (n.parameters.map encParameter)),
    ("signature", .jstr n.signature),
    ("return_type", encOpt Json.jstr n.return_type),
    ("is_async", .jbool n.is_async),
    ("decorators", .jarr (n.decorators.map Json.jstr)),
    ("line_start", .jnum n.line_start), ("line_end", .jnum n.line_end)]

/-- Decode a `FunctionNode` by field lookup. -/
def decFunctionNode (j : Json) : Option FunctionNode := do
  let name ← (getField j "name").bind decStr
  let file ← (getField j "file").bind decNat
  let cid ← (getField j "class").bind (decOpt decNat)
  let doc ← (getField j "docstring").bind (decOpt decStr)
  let ps ← (getField j "parameters").bind (decList decParameter)
  let sig ← (getField j "signature").bind decStr
  let rt ← (getField j "return_type").bind (decOpt decStr)
  let ia ← (getField j "is_async").bind decBool
  let decs ← (getField j "decorators").bind (decList decStr)
  let ls ← (getField j "line_start").bind decNat
  let le ← (getField j "line_end").bind decNat
  pure ⟨name, file, cid, doc, ps, sig, rt, ia, decs, ls, le⟩

/-- `FunctionNode` round trip. -/
theorem decFunctionNode_enc (n : FunctionNode) :
    decFunctionNode (encFunctionNode n) = some n := by
  obtain ⟨name, file, cid, doc, ps, sig, rt, ia, decs, ls, le⟩ := n
  simp [encFunctionNode, decFunctionNode, getField, jobjFields, findVal,
    decStr, decNat, decBool,
    decOpt_encOpt decNat Json.jnum (fun _ => rfl),
    decOpt_encOpt decStr Json.jstr (fun _ => rfl),
    decList_enc decParameter encParameter decParameter_enc,
    decList_enc decStr Json.jstr (fun _ => rfl)]

/-- Encode a `CodeGraph` (maps become arrays of key-value pairs). -/
def encCodeGraph (g : CodeGraph) : Json :=
  .jobj [("files", .jarr (g.files.map (encPair Json.jnum encFileNode))),
    ("classes", .jarr (g.classes.map (encPair Json.jnum encClassNode))),
    ("functions", .jarr (g.functions.map (encPair Json.jnum encFunctionNode))),
    ("edges", .jarr (g.edges.map encEdge)),
    ("path_to_file", .jarr (g.path_to_file.map (encPair encFsPath Json.jnum))),
    ("module_to_file", .jarr (g.module_to_file.map (encPair Json.jstr Json.jnum))),
    ("next_file_id", .jnum g.next_file_id),
    ("next_class_id", .jnum g.next_class_id),
    ("next_function_id", .jnum g.next_function_id)]

/-- Decode a `CodeGraph` by field lookup. -/
def decCodeGraph (j : Json) : Option CodeGraph := do
  let fs' ← (getField j "files").bind (decList (decPair decNat decFileNode))
  let cs ← (getField j "classes").bind (decList (decPair decNat decClassNode))
  let fns ← (getField j "functions").bind (decList (decPair decNat decFunctionNode))
  let es ← (getField j "edges").bind (decList decEdge)
  let ptf ← (getField j "path_to_file").bind (decList (decPair decFsPath decNat))
  let mtf ← (getField j "module_to_file").bind (decList (decPair decStr decNat))
  let nfi ← (getField j "next_file_id").bind decNat
  let nci ← (getField j "next_class_id").bind decNat
  let nfun ← (getField j "next_function_id").bind decNat
  pure ⟨fs', cs, fns, es, ptf, mtf, nfi, nci, nfun⟩

/-- `CodeGraph` round trip. -/
theorem decCodeGraph_enc (g : CodeGraph) :
    decCodeGraph (encCodeGraph g) = some g := by
  obtain ⟨fs', cs, fns, es, ptf, mtf, nfi, nci, nfun⟩ := g
  simp [encCodeGraph, decCodeGraph, getField, jobjFields, findVal, decNat,
    decList_enc (decPair decNat decFileNode) (encPair Json.jnum encFileNode)
      (decPair_encPair decNat decFileNode Json.jnum encFileNode
        (fun _ => rfl) decFileNode_enc),
    decList_enc (decPair decNat decClassNode) (encPair Json.jnum encClassNode)
      (decPair_encPair decNat decClassNode Json.jnum encClassNode
        (fun _ => rfl) decClassNode_enc),
    decList_enc (decPair decNat decFunctionNode)
      (encPair Json.jnum encFunctionNode)
      (decPair_encPair decNat decFunctionNode Json.jnum encFunctionNode
        (fun _ => rfl) decFunctionNode_enc),
    decList_enc decEdge encEdge decEdge_enc,
    decList_enc (decPair decFsPath decNat) (encPair encFsPath Json.jnum)
      (decPair_encPair decFsPath decNat encFsPath Json.jnum
        decFsPath_enc (fun _ => rfl)),
    decList_enc (decPair decStr decNat) (encPair Json.jstr Json.jnum)
      (decPair_encPair decStr decNat Json.jstr Json.jnum
        (fun _ => rfl) (fun _ => rfl))]

/-- C8: every public entity of the unified AST model and the code
graph decodes from its encoded form back to a value equal to the
original in every field. -/
theorem c8_serialization_round_trip :
    (∀ p : ParsedFile, decParsedFile (encParsedFile p) = some p) ∧
    (∀ i : Import, decImport (encImport i) = some i) ∧
    (∀ n : ImportedName, decImportedName (encImportedName n) = some n) ∧
    (∀ c : Class, decClass (encClass c) = some c) ∧
    (∀ f : Function, decFunction (encFunction f) = some f) ∧
    (∀ p : Parameter, decParameter (encParameter p) = some p) ∧
    (∀ a : Attribute, decAttribute (encAttribute a) = some a) ∧
    (∀ c : Constant, decConstant (encConstant c) = some c) ∧
    (∀ n : FileNode, decFileNode (encFileNode n) = some n) ∧
    (∀ n : ClassNode, decClassNode (encClassNode n) = some n) ∧
    (∀ n : FunctionNode, decFunctionNode (encFunctionNode n) = some n) ∧
    (∀ e : Edge, decEdge (encEdge e) = some e) ∧
    (∀ g : CodeGraph, decCodeGraph (encCodeGraph g) = some g) :=
  ⟨decParsedFile_enc, decImport_enc, decImportedName_enc, decClass_enc,
   decFunction_enc, decParameter_enc, decAttribute_enc, decConstant_enc,
   decFileNode_enc, decClassNode_enc, decFunctionNode_enc, decEdge_enc,
   decCodeGraph_enc⟩


end Cartographer
